import Mathlib

/-!
Verification of the sqls linter core (internal/linter, internal/diagnostic,
internal/lintconfig and the validator package) against its specification.

The Go sources are embedded shallowly: pure helper functions become Lean
functions, the `DiagnosticBuilder` (which only ever appends) becomes list
concatenation in emission order, Go maps become association lists with
first-match lookup and replace-on-insert (which has the same lookup
semantics), and Go `int` becomes `Int`.

External collaborators that are not part of the linter sources (the parser,
the `parseutil` extraction helpers and the `database.DBCache` accessors) are
modelled as explicit inputs: a lint pass receives the parse result and the
extraction results instead of recomputing them, and the catalog is a record
of lookup functions.  This mirrors the specification, which declares the
tokenizer/parser and the schema catalog to be external components.
-/

namespace Sqls

/-- Single-quote character (code 39), used to build the Go format strings
without apostrophe literals. -/
def sq : String := String.singleton (Char.ofNat 39)

/-- Wraps a string in single quotes, as the Go `'%s'` format verbs do. -/
def q (s : String) : String := sq ++ s ++ sq

/-- token.Pos: a line/column source position (Go ints). -/
structure Pos where
  line : Int
  col : Int
deriving DecidableEq, Repr

/-- diagnostic.Position: an LSP-like zero-based position. -/
structure Position where
  line : Int
  character : Int
deriving DecidableEq, Repr

/-- diagnostic.Range: start/end pair of LSP-like positions. -/
structure Range where
  start : Position
  stop : Position
deriving DecidableEq, Repr

/-- diagnostic.DiagnosticSeverity. -/
inductive DiagnosticSeverity where
  | error
  | warning
  | info
  | hint
deriving DecidableEq, Repr

/-- diagnostic.Diagnostic: a single linting finding.  Codes are the stable
strings of the Go `DiagnosticCode` constants. -/
structure Diagnostic where
  range : Range
  severity : DiagnosticSeverity
  code : String
  source : String
  message : String
deriving DecidableEq, Repr

def codeSyntaxError : String := "syntax-error"
def codeAmbiguousColumn : String := "ambiguous-column"
def codeInvalidSchema : String := "invalid-schema"
def codeTableNotFound : String := "table-not-found"
def codeColumnNotFound : String := "column-not-found"
def codeUnusedAlias : String := "unused-alias"
def codeSelectStar : String := "select-star"
def codeNullComparison : String := "null-comparison"
def codeImplicitJoin : String := "implicit-join"
def codeReservedWordCase : String := "reserved-word-case"
def codeMissingSemicolon : String := "missing-semicolon"

/-- diagnostic.posToRange: converts token positions (1-based in the intended
convention) to the LSP-like `Range`, subtracting one from both coordinates. -/
def posToRange (startP stopP : Pos) : Range :=
  ⟨⟨startP.line - 1, startP.col - 1⟩, ⟨stopP.line - 1, stopP.col - 1⟩⟩

/-- DiagnosticBuilder.Add* with a given severity: builds the diagnostic that
the Go builder appends (source tag is always "sqls"). -/
def mkDiag (sev : DiagnosticSeverity) (startP stopP : Pos) (code message : String) :
    Diagnostic :=
  ⟨posToRange startP stopP, sev, code, "sqls", message⟩

/-- diagnostic.FormatError for the message templates that the linter uses. -/
def formatError (code : String) (args : List String) : String :=
  let a0 := args.getD 0 ""
  let a1 := args.getD 1 ""
  if code = codeTableNotFound then "Table " ++ q a0 ++ " not found"
  else if code = codeColumnNotFound then
    "Column " ++ q a0 ++ " not found in table " ++ q a1
  else if code = codeAmbiguousColumn then
    "Column " ++ q a0 ++ " is ambiguous, found in tables: " ++ a1
  else if code = codeInvalidSchema then "Schema " ++ q a0 ++ " does not exist"
  else if code = codeSelectStar then
    "Use of SELECT * is discouraged, specify columns explicitly"
  else if code = codeNullComparison then
    "Comparing with NULL using " ++ q "=" ++ " or " ++ q "!=" ++ ", use " ++
      q "IS NULL" ++ " or " ++ q "IS NOT NULL"
  else if code = codeUnusedAlias then
    "Alias " ++ q a0 ++ " is defined but never used"
  else if code = codeReservedWordCase then
    "Reserved word " ++ q a0 ++ " should be " ++ a1
  else if code = codeMissingSemicolon then "Missing semicolon at end of statement"
  else code ++ ": [" ++ String.intercalate " " args ++ "]"

/-- lintconfig.RuleSeverity. -/
inductive RuleSeverity where
  | error
  | warning
  | info
  | hint
  | off
deriving DecidableEq, Repr

/-- lintconfig.Config: the subset of fields the linter core reads. -/
structure Config where
  enabled : Bool
  checkSyntax : Bool
  checkTableReferences : Bool
  checkColumnReferences : Bool
  warnOnSelectStar : Bool
  warnOnNullComparison : Bool
  warnOnUnusedAlias : Bool
  warnOnImplicitJoin : Bool
  warnOnAmbiguousColumn : Bool
  checkReservedWordCase : RuleSeverity
  preferredKeywordCase : String
  checkMissingSemicolon : RuleSeverity
  maxDiagnostics : Int
deriving DecidableEq, Repr

/-- lintconfig.DefaultConfig. -/
def defaultConfig : Config :=
  { enabled := true
    checkSyntax := true
    checkTableReferences := true
    checkColumnReferences := true
    warnOnSelectStar := true
    warnOnNullComparison := true
    warnOnUnusedAlias := false
    warnOnImplicitJoin := true
    warnOnAmbiguousColumn := true
    checkReservedWordCase := .off
    preferredKeywordCase := "upper"
    checkMissingSemicolon := .off
    maxDiagnostics := 100 }

/-- lintconfig.Config.IsRuleEnabled. -/
def isRuleEnabled (s : RuleSeverity) : Bool := s ≠ RuleSeverity.off

/-- lintconfig.GetDiagnosticSeverity. -/
def getDiagnosticSeverity : RuleSeverity → DiagnosticSeverity
  | .error => .error
  | .warning => .warning
  | .info => .info
  | .hint => .hint
  | .off => .warning

/-- strings.ToLower, written with a structural character map so that it
reduces in the kernel. -/
def strLower (s : String) : String := String.mk (s.data.map Char.toLower)

/-- strings.ToUpper, written with a structural character map. -/
def strUpper (s : String) : String := String.mk (s.data.map Char.toUpper)

/-- strings.HasPrefix, written with a structural prefix test. -/
def startsWithStr (s pre : String) : Bool := pre.data.isPrefixOf s.data

/-- strings.EqualFold, modelled as equality of lower-cased strings. -/
def eqFold (a b : String) : Bool := strLower a == strLower b

/-- database.ColumnDesc: the fields the linter reads (owning table, name). -/
structure ColumnDesc where
  table : String
  name : String
deriving DecidableEq, Repr

/-- database.DBCache, modelled as a read-only catalog snapshot.  The accessor
methods live in the external `database` package, so they are modelled as
opaque lookup data: `schemaTables` is the exported map field (exact-key
lookup, as the Go code indexes it directly), and the remaining fields stand
for the `SortedTables`, `SortedSchemas`, `ColumnDescs` and `ColumnDatabase`
accessors. -/
structure DBCache where
  sortedTables : List String
  sortedSchemas : List String
  schemaTables : List (String × List String)
  columnDescs : String → Option (List ColumnDesc)
  columnDatabase : String → String → Option (List ColumnDesc)

/-- Association-list lookup: first binding wins, like a Go map read. -/
def alookup {α : Type} (m : List (String × α)) (k : String) : Option α :=
  (m.find? (fun e => e.1 == k)).map (·.2)

/-- Go map assignment `m[k] = v`: replaces an existing binding in place, else
appends a new one.  Lookup through `alookup` agrees with the Go map. -/
def ainsert {α : Type} (m : List (String × α)) (k : String) (v : α) :
    List (String × α) :=
  if m.any (fun e => e.1 == k) then
    m.map (fun e => if e.1 == k then (k, v) else e)
  else m ++ [(k, v)]

/-- token.TokenKind: the kinds the linter distinguishes. -/
inductive TokenKind where
  | sqlKeyword
  | comma
  | whitespace
  | comment
  | multilineComment
  | semicolon
  | mult
  | eq
  | neq
  | singleQuotedString
  | period
  | other
deriving DecidableEq, Repr

/-- ast.SQLToken: kind, raw text, the SQLWord keyword (when the value is a
`*token.SQLWord`), and the From/To positions. -/
structure SQLToken where
  kind : TokenKind
  value : String
  word : Option String
  fromPos : Pos
  toPos : Pos
deriving DecidableEq, Repr

/-- ast.Identifier: wraps a single token; `name` is `NoQuoteString()`,
`wildcard` is `IsWildcard()`. -/
structure Ident where
  name : String
  tok : SQLToken
  wildcard : Bool
deriving DecidableEq, Repr

/-- The AST node shapes the linter distinguishes.  `member` is
`ast.MemberIdentifier` (parent/child identifier parts), `aliased` is
`ast.Aliased` (real-name subtree plus alias subtree), `identList` is
`ast.IdentifierList`, `stmt` is `ast.Statement`, `comparison` is
`ast.Comparison` and `nlist` is a generic `ast.TokenList` container.
All of these are `ast.TokenList`s in Go, so the tree walk descends into
them; `ident` and `tok` are leaves. -/
inductive Node where
  | ident (i : Ident)
  | member (parentIdent childIdent : Option Ident) (pos stopPos : Pos)
  | aliased (realName : Node) (aliasedName : Option Node) (pos stopPos : Pos)
  | identList (toks : List Node)
  | stmt (toks : List Node)
  | comparison (toks : List Node)
  | nlist (toks : List Node)
  | tok (t : SQLToken)

/-- The member parts, as `ident` leaf nodes (they sit in the Toks of the
`MemberIdentifier` token list). -/
def memberChildren (p c : Option Ident) : List Node :=
  (p.map Node.ident).toList ++ (c.map Node.ident).toList

mutual

/-- validator.walk: depth-first pre-order traversal, as the list of visited
nodes in visit order. -/
def walkNodes : Node → List Node
  | .ident i => [.ident i]
  | .tok t => [.tok t]
  | .member p c a b => .member p c a b :: memberChildren p c
  | .aliased r an a b => .aliased r an a b :: (walkNodes r ++ walkOptNode an)
  | .identList ts => .identList ts :: walkNodeList ts
  | .stmt ts => .stmt ts :: walkNodeList ts
  | .comparison ts => .comparison ts :: walkNodeList ts
  | .nlist ts => .nlist ts :: walkNodeList ts

/-- Walk of an optional child node. -/
def walkOptNode : Option Node → List Node
  | none => []
  | some n => walkNodes n

/-- Walk of a child list, left to right. -/
def walkNodeList : List Node → List Node
  | [] => []
  | n :: ns => walkNodes n ++ walkNodeList ns

end

/-- validator.flattenTokens: all low-level tokens within a node, in order
(`ast.Identifier` is an `ast.Token`, so it contributes its wrapped token). -/
def flattenTokens (n : Node) : List SQLToken :=
  (walkNodes n).filterMap fun m =>
    match m with
    | .ident i => some i.tok
    | .tok t => some t
    | _ => none

/-- ast.IdentifierList.GetIdentifiers: the element nodes, skipping the
punctuation tokens. -/
def getIdentifiers (ts : List Node) : List Node :=
  ts.filter fun n => match n with | .tok _ => false | _ => true

/-- ast.Aliased.GetAliasedNameIdent: the alias-name identifier (the aliased
name is an `ast.Identifier` in every shape the linter handles). -/
def getAliasedNameIdent (an : Option Node) : Option Ident :=
  match an with
  | some (.ident i) => some i
  | _ => none

/-- Word-match helper: the token is an SQLKeyword token whose SQLWord keyword
matches `s` case-insensitively (`strings.EqualFold(w.Keyword, s)`). -/
def wordIs (t : SQLToken) (s : String) : Bool :=
  t.kind == TokenKind.sqlKeyword && (t.word.map (fun w => eqFold w s)).getD false

/-- TableValidator.mightBePartialKeyword: case-insensitive prefix test
against the fixed suppression list. -/
def mightBePartialKeyword (s : String) : Bool :=
  let keywords := ["JOIN", "LEFT", "RIGHT", "INNER", "OUTER", "CROSS", "FULL",
    "WHERE", "GROUP", "ORDER", "HAVING", "LIMIT", "OFFSET",
    "UNION", "INTERSECT", "EXCEPT",
    "AND", "OR", "NOT", "IN", "EXISTS", "LIKE", "BETWEEN",
    "AS", "ON", "USING", "WITH"]
  keywords.any fun kw => startsWithStr kw (strUpper s)

/-- TableValidator.schemaExists (the cache is non-nil on every path that
reaches this check). -/
def schemaExists (c : DBCache) (schemaName : String) : Bool :=
  c.sortedSchemas.any fun schema => eqFold schema schemaName

/-- TableValidator.tableExists (non-nil cache): schema-qualified lookup uses
the `SchemaTables` map with the exact schema key; otherwise the default
scope is searched first and then every schema. -/
def tableExists (c : DBCache) (tableName schemaName : String) : Bool :=
  if schemaName ≠ "" then
    match alookup c.schemaTables schemaName with
    | some tables => tables.any fun table => eqFold table tableName
    | none => false
  else
    c.sortedTables.any (fun table => eqFold table tableName) ||
      c.schemaTables.any fun e => e.2.any fun table => eqFold table tableName

/-- TableValidator.formatTableName. -/
def formatTableName (schema table : String) : String :=
  if schema ≠ "" then schema ++ "." ++ table else table

/-- TableValidator.validateTableReference: emits the diagnostics this single
reference produces (empty-reference guard, partial-keyword suppression,
schema short-circuit, then table existence). -/
def validateTableReference (c : DBCache) (schemaName tableName : String)
    (startPos stopPos : Pos) : List Diagnostic :=
  if tableName = "" ∧ schemaName = "" then []
  else if tableName.utf8ByteSize ≤ 4 ∧ mightBePartialKeyword tableName then []
  else if schemaName ≠ "" ∧ ¬schemaExists c schemaName then
    [mkDiag .error startPos stopPos codeInvalidSchema
      (formatError codeInvalidSchema [schemaName])]
  else if ¬tableExists c tableName schemaName then
    [mkDiag .error startPos stopPos codeTableNotFound
      (formatError codeTableNotFound [formatTableName schemaName tableName])]
  else []

mutual

/-- TableValidator.validateNodeAsTable: dispatch on the node shape.  A
subquery (any other `TokenList` as the real name of an alias) is skipped.
The `IdentifierList` case iterates `GetIdentifiers()`, which only drops the
punctuation tokens; since a bare token matches no case of the switch and
produces nothing, iterating all children is equivalent and keeps the
recursion structural. -/
def validateNodeAsTable (c : DBCache) : Node → List Diagnostic
  | .ident i => validateTableReference c "" i.name i.tok.fromPos i.tok.toPos
  | .member p ch a b =>
      validateTableReference c ((p.map (·.tok.value)).getD "")
        ((ch.map (·.tok.value)).getD "") a b
  | .aliased r _ a b =>
      (match r with
        | .ident real => validateTableReference c "" real.name a b
        | .member rp rc _ _ =>
            validateTableReference c ((rp.map (·.tok.value)).getD "")
              ((rc.map (·.tok.value)).getD "") a b
        | _ => [])
  | .identList ts => validateNodesAsTables c ts
  | _ => []

/-- The `IdentifierList` recursion of validateNodeAsTable. -/
def validateNodesAsTables (c : DBCache) : List Node → List Diagnostic
  | [] => []
  | n :: ns => validateNodeAsTable c n ++ validateNodesAsTables c ns

end

/-- One step of the CheckImplicitJoins token scan: state is (inside a FROM
span, last top-level comma seen inside a FROM span). -/
def implicitJoinStep (st : Bool × Option SQLToken) (t : SQLToken) :
    Bool × Option SQLToken :=
  if t.kind = TokenKind.sqlKeyword then
    match t.word with
    | some w =>
        let up := strUpper w
        if up = "FROM" then (true, none)
        else if up = "JOIN" ∨ up = "WHERE" ∨ up = "ON" then (false, st.2)
        else st
    | none => st
  else if st.1 ∧ t.kind = TokenKind.comma then (st.1, some t)
  else st

/-- TableValidator.CheckImplicitJoins, on the flattened token stream of the
parsed document: one warning at the final tracked comma, if any. -/
def checkImplicitJoins (toks : List SQLToken) : List Diagnostic :=
  match (toks.foldl implicitJoinStep (false, none)).2 with
  | some lastComma =>
      [mkDiag .warning lastComma.fromPos lastComma.toPos codeImplicitJoin
        "Implicit join detected, consider using explicit JOIN syntax"]
  | none => []

/-- Results of the external `parseutil` extraction helpers for one parsed
document.  Modelled from the spec: `parseutil` is not part of the linter
sources, so a lint pass receives the nodes that `ExtractTableReferences`,
`ExtractTableReference`, `ExtractTableFactor`, `ExtractSelectExpr`,
`ExtractWhereCondition` and `ExtractAliasedIdentifier` would return (table
reference nodes in the three table-position contexts, SELECT-list
expressions, WHERE-clause conditions, and alias definitions outside
subqueries). -/
structure Extract where
  tableReferences : List Node
  tableReference : List Node
  tableFactor : List Node
  selectExpr : List Node
  whereCondition : List Node
  aliasedIdentifier : List Node

/-- The table-position nodes gathered from the three extraction points, in
the order the validators concatenate them. -/
def extractedTableNodes (ext : Extract) : List Node :=
  ext.tableReferences ++ ext.tableReference ++ ext.tableFactor

/-- TableValidator.Validate: gate on the config and the cache, then validate
every gathered table node and optionally warn for implicit joins. -/
def tableValidate (cfg : Config) (cache : Option DBCache) (parsed : Option Node)
    (ext : Extract) : List Diagnostic :=
  if ¬cfg.checkTableReferences then []
  else
    match cache with
    | none => []
    | some c =>
        match parsed with
        | none => []
        | some p =>
            validateNodesAsTables c (extractedTableNodes ext) ++
              (if cfg.warnOnImplicitJoin then checkImplicitJoins (flattenTokens p)
               else [])

/-- parseutil.TableInfo: schema, name, alias of one table reference (alias
empty when absent, as in Go). -/
structure TableInfo where
  databaseSchema : String
  name : String
  aliasName : String
deriving DecidableEq, Repr

mutual

/-- The table infos produced by the `toInfos` closure of
ColumnValidator.extractTables for one node. -/
def toInfos : Node → List TableInfo
  | .ident i => [⟨"", i.name, ""⟩]
  | .member p c _ _ =>
      [⟨(p.map (·.tok.value)).getD "", (c.map (·.tok.value)).getD "", ""⟩]
  | .aliased r an _ _ =>
      (match an with
        | none => []
        | some anNode =>
            let aliasName := ((getAliasedNameIdent (some anNode)).map (·.name)).getD ""
            match r with
            | .ident real => [⟨"", real.name, aliasName⟩]
            | .member rp rc _ _ =>
                [⟨(rp.map (·.tok.value)).getD "",
                  (rc.map (·.tok.value)).getD "", aliasName⟩]
            | _ => [])
  | .identList ts => toInfosList ts
  | _ => []

/-- The `IdentifierList` recursion of `toInfos` (iterating all children is
equivalent to `GetIdentifiers()`, since bare tokens produce nothing). -/
def toInfosList : List Node → List TableInfo
  | [] => []
  | n :: ns => toInfos n ++ toInfosList ns

end

mutual

/-- The alias-map assignments (lower-cased alias to table name) performed by
the `toInfos` closure of ColumnValidator.extractTables, in execution order. -/
def aliasAssigns : Node → List (String × String)
  | .aliased r an _ _ =>
      (match an with
        | none => []
        | some anNode =>
            let aliasName := ((getAliasedNameIdent (some anNode)).map (·.name)).getD ""
            match r with
            | .ident real => [(strLower aliasName, real.name)]
            | .member _ rc _ _ => [(strLower aliasName, ((rc.map (·.name)).getD ""))]
            | _ => [])
  | .identList ts => aliasAssignsList ts
  | _ => []

/-- The `IdentifierList` recursion of `aliasAssigns`. -/
def aliasAssignsList : List Node → List (String × String)
  | [] => []
  | n :: ns => aliasAssigns n ++ aliasAssignsList ns

end

/-- Key used by extractTables to deduplicate table infos. -/
def tableInfoKey (ti : TableInfo) : String :=
  strUpper ti.databaseSchema ++ "\t" ++ strUpper ti.name

/-- The deduplication fold of ColumnValidator.extractTables: keep the first
info for each upper-cased schema/name key. -/
def dedupInfos (infos : List TableInfo) : List TableInfo :=
  (infos.foldl
    (fun (st : List TableInfo × List String) ti =>
      if tableInfoKey ti ∈ st.2 then st
      else (st.1 ++ [ti], st.2 ++ [tableInfoKey ti]))
    ([], [])).1

/-- ColumnValidator.extractTables: the deduplicated table infos and the
alias map built over the three table-extraction points. -/
def extractTables (ext : Extract) : List TableInfo × List (String × String) :=
  let nodes := extractedTableNodes ext
  (dedupInfos (nodes.foldl (fun acc n => acc ++ toInfos n) []),
    (nodes.foldl (fun acc n => acc ++ aliasAssigns n) []).foldl
      (fun m e => ainsert m e.1 e.2) [])

/-- ColumnContext: per-pass scope data (association lists stand for the Go
maps; `allColumns` accumulates descriptor lists per lower-cased column
name). -/
structure ColumnContextL where
  tableColumns : List (String × List ColumnDesc)
  tableAliases : List (String × String)
  allColumns : List (String × List ColumnDesc)

/-- Append a descriptor to the `allColumns` entry of its lower-cased name,
creating the entry if needed (the append-or-create in buildColumnContext). -/
def allColumnsAdd (m : List (String × List ColumnDesc)) (col : ColumnDesc) :
    List (String × List ColumnDesc) :=
  let key := strLower col.name
  match alookup m key with
  | some existing => ainsert m key (existing ++ [col])
  | none => ainsert m key [col]

/-- The catalog lookup chain of buildColumnContext: bare name, then
schema-qualified name, then every schema. -/
def contextColsFor (c : DBCache) (ti : TableInfo) : Option (List ColumnDesc) :=
  match c.columnDescs ti.name with
  | some cols => some cols
  | none =>
      match (if ti.databaseSchema ≠ "" then
               c.columnDescs (ti.databaseSchema ++ "." ++ ti.name)
             else none) with
      | some cols => some cols
      | none => c.sortedSchemas.findSome? fun schema => c.columnDatabase schema ti.name

/-- One iteration of the buildColumnContext loop. -/
def buildColumnContextStep (c : DBCache) (ctx : ColumnContextL) (ti : TableInfo) :
    ColumnContextL :=
  match contextColsFor c ti with
  | some cols =>
      if cols ≠ [] then
        { tableColumns := ainsert ctx.tableColumns (strLower ti.name) cols
          tableAliases :=
            ainsert
              (if ti.aliasName ≠ "" then ainsert ctx.tableAliases (strLower ti.aliasName) ti.name
               else ctx.tableAliases)
              (strLower ti.name) ti.name
          allColumns := cols.foldl allColumnsAdd ctx.allColumns }
      else ctx
  | none => ctx

/-- ColumnValidator.buildColumnContext. -/
def buildColumnContext (c : DBCache) (tables : List TableInfo) : ColumnContextL :=
  tables.foldl (buildColumnContextStep c) ⟨[], [], []⟩

/-- The member-part positions collected by the first skip pass: for every
`MemberIdentifier` in the walk, the start positions of its parent and child
identifiers. -/
def memberSkipPositions (parsed : Node) : List Pos :=
  (walkNodes parsed).flatMap fun n =>
    match n with
    | .member p c _ _ =>
        (p.map (·.tok.fromPos)).toList ++ (c.map (·.tok.fromPos)).toList
    | _ => []

mutual

/-- collectTableRefPositions: the identifier start positions inside one
table-reference node (child before parent for member identifiers, real name
only for aliases).  The `IdentifierList` case iterates all children, which
agrees with `GetIdentifiers()` because bare tokens contribute nothing. -/
def tableRefSkipPositions : Node → List Pos
  | .ident i => [i.tok.fromPos]
  | .member p c _ _ =>
      (c.map (·.tok.fromPos)).toList ++ (p.map (·.tok.fromPos)).toList
  | .aliased r _ _ _ => tableRefSkipPositions r
  | .identList ts => tableRefSkipPositionsList ts
  | _ => []

/-- The `IdentifierList` recursion of `tableRefSkipPositions`. -/
def tableRefSkipPositionsList : List Node → List Pos
  | [] => []
  | n :: ns => tableRefSkipPositions n ++ tableRefSkipPositionsList ns

end

/-- The alias-name positions collected by the last skip pass: all identifier
positions inside the aliased-name subtree of every `Aliased` node. -/
def aliasSkipPositions (parsed : Node) : List Pos :=
  (walkNodes parsed).flatMap fun n =>
    match n with
    | .aliased _ (some an) _ _ =>
        (walkNodes an).filterMap fun m =>
          match m with
          | .ident i => some i.tok.fromPos
          | _ => none
    | _ => []

/-- skipIdentifierPositions: the full exclusion set of source positions, as
collected before any resolution (member parts, table-reference identifiers
from the three extraction points, alias-definition targets). -/
def computeSkips (parsed : Node) (ext : Extract) : List Pos :=
  memberSkipPositions parsed ++
    (extractedTableNodes ext).flatMap tableRefSkipPositions ++
    aliasSkipPositions parsed

/-- ColumnValidator.isMySQLDriver. -/
def isMySQLDriver (driver : String) : Bool :=
  driver = "mysql" ∨ driver = "mysql8" ∨ driver = "mysql57" ∨ driver = "mysql56"

/-- ColumnValidator.isStringLiteral: single-quoted tokens always, raw text
starting with a single quote, or starting with a double quote under a
MySQL-family driver. -/
def isStringLiteral (driver : String) (i : Ident) : Bool :=
  if i.tok.kind = TokenKind.singleQuotedString then true
  else
    let raw := i.tok.value
    if raw.length ≥ 2 then
      if raw.front = Char.ofNat 39 then true
      else raw.front = Char.ofNat 34 ∧ isMySQLDriver driver
    else false

/-- ColumnValidator.looksLikeColumnReference: the identifier is not one of
the fixed common keywords. -/
def looksLikeColumnReference (i : Ident) : Bool :=
  let name := strUpper i.tok.value
  let commonKeywords := ["SELECT", "FROM", "WHERE", "JOIN", "LEFT", "RIGHT",
    "INNER", "OUTER",
    "ON", "AND", "OR", "NOT", "IN", "EXISTS", "BETWEEN", "LIKE",
    "ORDER", "GROUP", "BY", "HAVING", "LIMIT", "OFFSET",
    "INSERT", "UPDATE", "DELETE", "CREATE", "DROP", "ALTER",
    "AS", "ASC", "DESC", "NULL", "IS", "TRUE", "FALSE"]
  ¬(commonKeywords.any fun kw => name == kw)

/-- The unique-table accumulation of the ambiguity check: first-seen table
names, deduplicated (the Go `seen` set is equivalent to membership in the
accumulated list, since both grow together). -/
def uniqueTables (cols : List ColumnDesc) : List String :=
  cols.foldl (fun acc col => if col.table ∈ acc then acc else acc ++ [col.table]) []

/-- The column lookup chain of the qualified sweep: context first, then the
cache by bare name, then every schema. -/
def qualifiedColsFor (ctx : ColumnContextL) (c : DBCache) (tableName : String) :
    Option (List ColumnDesc) :=
  match alookup ctx.tableColumns (strLower tableName) with
  | some cols => some cols
  | none =>
      match c.columnDescs tableName with
      | some cols => some cols
      | none => c.sortedSchemas.findSome? fun schema => c.columnDatabase schema tableName

/-- The ambiguity warning emitted for one identifier whose name resolves to
`cols`, when more than one distinct table is involved. -/
def ambiguityDiags (cfg : Config) (i : Ident) (cols : List ColumnDesc) :
    List Diagnostic :=
  if cols.length > 1 ∧ cfg.warnOnAmbiguousColumn then
    let unique := uniqueTables cols
    if unique.length > 1 then
      [mkDiag .warning i.tok.fromPos i.tok.toPos codeAmbiguousColumn
        (formatError codeAmbiguousColumn
          [i.name, String.intercalate ", " unique])]
    else []
  else []

/-- The per-node handler of the qualified sweep of ColumnValidator.Validate:
resolve the parent through the alias map, gate on it being a known
table/alias of the query, skip wildcards, locate the columns, and report a
missing column at the child token's span. -/
def handleQualified (c : DBCache) (aliasMap : List (String × String))
    (ctx : ColumnContextL) (tables : List TableInfo) : Node → List Diagnostic
  | .member (some parent) (some child) _ _ =>
      let parentName := parent.name
      let aliasHit := alookup aliasMap (strLower parentName)
      let tableName := aliasHit.getD parentName
      let gateOk :=
        aliasHit.isSome ∨ (alookup ctx.tableColumns (strLower parentName)).isSome ∨
          tables.any fun ti => eqFold ti.name parentName ∨ eqFold ti.aliasName parentName
      if ¬gateOk then
        [mkDiag .error parent.tok.fromPos parent.tok.toPos codeTableNotFound
          ("Table or alias " ++ q parentName ++ " not found in query")]
      else
        let colName := child.name
        if child.wildcard ∨ colName = "*" ∨ colName = "" then []
        else
          match qualifiedColsFor ctx c tableName with
          | none => []
          | some cols =>
              if cols = [] then []
              else if cols.any fun col => eqFold col.name colName then []
              else
                [mkDiag .error child.tok.fromPos child.tok.toPos codeColumnNotFound
                  (formatError codeColumnNotFound [colName, tableName])]
  | _ => []

/-- The per-identifier handler shared by the SELECT-list and WHERE sweeps of
ColumnValidator.Validate. -/
def handleUnqualified (driver : String) (cfg : Config) (skips : List Pos)
    (aliasMap : List (String × String)) (ctx : ColumnContextL) :
    Node → List Diagnostic
  | .ident i =>
      if i.tok.fromPos ∈ skips then []
      else if isStringLiteral driver i then []
      else if i.name = "" ∨ i.wildcard then []
      else if (alookup aliasMap (strLower i.name)).isSome then []
      else
        match alookup ctx.allColumns (strLower i.name) with
        | none =>
            if ctx.tableColumns.length > 0 ∧ looksLikeColumnReference i then
              [mkDiag .error i.tok.fromPos i.tok.toPos codeColumnNotFound
                ("Column " ++ q i.name ++ " not found in any referenced table")]
            else []
        | some cols => ambiguityDiags cfg i cols
  | _ => []

/-- The per-identifier handler of the whole-statement sweep of
ColumnValidator.Validate: like `handleUnqualified` but with the
table-name-used-as-column case. -/
def handleUnqualifiedAll (driver : String) (cfg : Config) (skips : List Pos)
    (aliasMap : List (String × String)) (ctx : ColumnContextL)
    (tables : List TableInfo) : Node → List Diagnostic
  | .ident i =>
      if i.tok.fromPos ∈ skips then []
      else if isStringLiteral driver i then []
      else if i.name = "" ∨ i.wildcard then []
      else if (alookup aliasMap (strLower i.name)).isSome then []
      else
        match alookup ctx.allColumns (strLower i.name) with
        | none =>
            if tables.any fun ti => eqFold ti.name i.name then
              [mkDiag .error i.tok.fromPos i.tok.toPos codeColumnNotFound
                (q i.name ++ " is a table name, not a column. Did you mean " ++
                  q (i.name ++ ".column_name") ++ "?")]
            else if ctx.tableColumns.length > 0 ∧ looksLikeColumnReference i then
              [mkDiag .error i.tok.fromPos i.tok.toPos codeColumnNotFound
                ("Column " ++ q i.name ++ " not found in any referenced table")]
            else []
        | some cols => ambiguityDiags cfg i cols
  | _ => []

/-- The qualified sweep: the walk of the whole statement fed through
`handleQualified`. -/
def qualifiedSweep (c : DBCache) (aliasMap : List (String × String))
    (ctx : ColumnContextL) (tables : List TableInfo) (parsed : Node) :
    List Diagnostic :=
  (walkNodes parsed).flatMap (handleQualified c aliasMap ctx tables)

/-- The SELECT-list sweep: every node walked from every extracted SELECT
expression, in order (the per-extracted-node loops concatenate). -/
def selectSweep (driver : String) (cfg : Config) (skips : List Pos)
    (aliasMap : List (String × String)) (ctx : ColumnContextL) (ext : Extract) :
    List Diagnostic :=
  (ext.selectExpr.flatMap walkNodes).flatMap
    (handleUnqualified driver cfg skips aliasMap ctx)

/-- The WHERE sweep, analogous to the SELECT-list sweep. -/
def whereSweep (driver : String) (cfg : Config) (skips : List Pos)
    (aliasMap : List (String × String)) (ctx : ColumnContextL) (ext : Extract) :
    List Diagnostic :=
  (ext.whereCondition.flatMap walkNodes).flatMap
    (handleUnqualified driver cfg skips aliasMap ctx)

/-- The whole-statement sweep over every remaining identifier. -/
def allSweep (driver : String) (cfg : Config) (skips : List Pos)
    (aliasMap : List (String × String)) (ctx : ColumnContextL)
    (tables : List TableInfo) (parsed : Node) : List Diagnostic :=
  (walkNodes parsed).flatMap
    (handleUnqualifiedAll driver cfg skips aliasMap ctx tables)

/-- ColumnValidator.Validate: gate on the config and the cache, build the
scope, compute the exclusion set, then run the qualified sweep and the three
unqualified sweeps in order. -/
def columnValidate (cfg : Config) (cache : Option DBCache) (driver : String)
    (parsed : Option Node) (ext : Extract) : List Diagnostic :=
  if ¬cfg.checkColumnReferences then []
  else
    match cache with
    | none => []
    | some c =>
        match parsed with
        | none => []
        | some p =>
            let tav := extractTables ext
            let tables := tav.1
            let aliasMap := tav.2
            let ctx := buildColumnContext c tables
            let skips := computeSkips p ext
            qualifiedSweep c aliasMap ctx tables p ++
              selectSweep driver cfg skips aliasMap ctx ext ++
              whereSweep driver cfg skips aliasMap ctx ext ++
              allSweep driver cfg skips aliasMap ctx tables p

/-- One reserved-word-case check on a single token (the body of the
checkReservedWordCase loop). -/
def reservedWordCaseDiags (preferUpper : Bool) (sev : DiagnosticSeverity)
    (t : SQLToken) : List Diagnostic :=
  if t.kind = TokenKind.sqlKeyword ∧ t.word.isSome then
    let val := t.value
    let isUpper := val == strUpper val
    let isLower := val == strLower val
    let msg := formatError codeReservedWordCase
      ["keyword", if preferUpper then "uppercase" else "lowercase"]
    if preferUpper ∧ ¬isUpper ∧ isLower then
      [mkDiag sev t.fromPos t.toPos codeReservedWordCase msg]
    else if ¬preferUpper ∧ ¬isLower ∧ isUpper then
      [mkDiag sev t.fromPos t.toPos codeReservedWordCase msg]
    else []
  else []

/-- StyleValidator.checkReservedWordCase over the flattened tokens. -/
def checkReservedWordCase (cfg : Config) (parsed : Node) : List Diagnostic :=
  let preferUpper := strLower cfg.preferredKeywordCase = "upper"
  let sev := getDiagnosticSeverity cfg.checkReservedWordCase
  (flattenTokens parsed).flatMap (reservedWordCaseDiags preferUpper sev)

/-- Node end position (`ast.Node.End()`): last token position of the
subtree, `(0, 0)` for an empty container. -/
def nodeEnd (n : Node) : Pos :=
  match (flattenTokens n).getLast? with
  | some t => t.toPos
  | none => ⟨0, 0⟩

/-- The last token of a statement that is not whitespace or a comment. -/
def lastMeaningfulToken (toks : List SQLToken) : Option SQLToken :=
  toks.reverse.find? fun t =>
    t.kind ≠ TokenKind.whitespace ∧ t.kind ≠ TokenKind.comment ∧
      t.kind ≠ TokenKind.multilineComment

/-- StyleValidator.checkMissingSemicolon: for every statement node, report
when its last meaningful token is not a semicolon. -/
def checkMissingSemicolon (cfg : Config) (parsed : Node) : List Diagnostic :=
  let sev := getDiagnosticSeverity cfg.checkMissingSemicolon
  (walkNodes parsed).flatMap fun n =>
    match n with
    | .stmt ts =>
        match lastMeaningfulToken (flattenTokens (.stmt ts)) with
        | none => []
        | some last =>
            if last.kind ≠ TokenKind.semicolon then
              [mkDiag sev (nodeEnd (.stmt ts)) (nodeEnd (.stmt ts))
                codeMissingSemicolon (formatError codeMissingSemicolon [])]
            else []
    | _ => []

/-- StyleValidator.Validate. -/
def styleValidate (cfg : Config) (parsed : Node) : List Diagnostic :=
  (if isRuleEnabled cfg.checkReservedWordCase then checkReservedWordCase cfg parsed
   else []) ++
    (if isRuleEnabled cfg.checkMissingSemicolon then checkMissingSemicolon cfg parsed
     else [])

/-- The null-comparison fold of checkNullComparisons: whether a NULL keyword
was seen, and the positions of the last `=` or `!=` operator. -/
def nullComparisonScan (toks : List SQLToken) : Bool × Pos × Pos :=
  toks.foldl
    (fun (st : Bool × Pos × Pos) t =>
      let hasNull := st.1 || wordIs t "NULL"
      if t.kind = TokenKind.eq ∨ t.kind = TokenKind.neq then
        (hasNull, t.fromPos, t.toPos)
      else (hasNull, st.2.1, st.2.2))
    (false, ⟨0, 0⟩, ⟨0, 0⟩)

/-- SyntaxValidator.checkNullComparisons: inspect every comparison node. -/
def checkNullComparisons (cfg : Config) (parsed : Node) : List Diagnostic :=
  if ¬cfg.warnOnNullComparison then []
  else
    (walkNodes parsed).flatMap fun n =>
      match n with
      | .comparison ts =>
          let scan := nullComparisonScan (flattenTokens (.comparison ts))
          if scan.1 ∧ scan.2.1 ≠ (⟨0, 0⟩ : Pos) then
            [mkDiag .warning scan.2.1 scan.2.2 codeNullComparison
              (formatError codeNullComparison [])]
          else []
      | _ => []

/-- SyntaxValidator.Validate. -/
def syntaxValidate (cfg : Config) (parsed : Node) : List Diagnostic :=
  checkNullComparisons cfg parsed

/-- The per-statement token scan of CheckSelectStar: the first `*` token
after a SELECT keyword and before the next FROM keyword, if any. -/
def selectStarScan : Bool → List SQLToken → Option SQLToken
  | _, [] => none
  | sawSelect, t :: rest =>
      if wordIs t "SELECT" then selectStarScan true rest
      else if sawSelect then
        if t.kind = TokenKind.mult then some t
        else if wordIs t "FROM" then none
        else selectStarScan sawSelect rest
      else selectStarScan sawSelect rest

/-- validator.CheckSelectStar: one warning per statement at the found `*`. -/
def checkSelectStar (cfg : Config) (parsed : Node) : List Diagnostic :=
  if ¬cfg.warnOnSelectStar then []
  else
    (walkNodes parsed).flatMap fun n =>
      match n with
      | .stmt ts =>
          match selectStarScan false (flattenTokens (.stmt ts)) with
          | some t =>
              [mkDiag .warning t.fromPos t.toPos codeSelectStar
                (formatError codeSelectStar [])]
          | none => []
      | _ => []

/-- The alias definitions collected by CheckUnusedAliases: lower-cased alias
name to alias identifier, over the extracted aliased identifiers (a Go map
built by repeated assignment). -/
def unusedAliasDefs (ext : Extract) : List (String × Ident) :=
  ext.aliasedIdentifier.foldl
    (fun m n =>
      match n with
      | .aliased _ an _ _ =>
          (match getAliasedNameIdent an with
            | some i => ainsert m (strLower i.name) i
            | none => m)
      | _ => m)
    []

/-- The used qualifier names: lower-cased parent parts of every member
identifier in the statement. -/
def usedAliasNames (parsed : Node) : List String :=
  (walkNodes parsed).filterMap fun n =>
    match n with
    | .member (some p) _ _ _ => some (strLower p.name)
    | _ => none

/-- validator.CheckUnusedAliases.  The final loop ranges over a Go map, whose
iteration order is unspecified and randomized at runtime; `aliasOrder` stands
for the order the runtime produced, so a real run corresponds to any
permutation of the collected definitions. -/
def checkUnusedAliases (cfg : Config) (parsed : Node) (ext : Extract)
    (aliasOrder : List (String × Ident)) : List Diagnostic :=
  if ¬cfg.warnOnUnusedAlias then []
  else
    let defs := unusedAliasDefs ext
    if defs = [] then []
    else
      let used := usedAliasNames parsed
      aliasOrder.flatMap fun e =>
        if e.1 ∈ used then []
        else
          [mkDiag .warning e.2.tok.fromPos e.2.tok.toPos codeUnusedAlias
            (formatError codeUnusedAlias [e.2.name])]

/-- Linter.runValidators: the fixed validator order of the coordinator.  The
coordinator's own gates are kept together with the gates inside the
individual validators, exactly as in the source. -/
def runValidators (cfg : Config) (cache : Option DBCache) (driver : String)
    (parsed : Node) (ext : Extract) (aliasOrder : List (String × Ident)) :
    List Diagnostic :=
  (if cfg.checkSyntax then syntaxValidate cfg parsed else []) ++
    (if cfg.checkTableReferences then tableValidate cfg cache (some parsed) ext
     else []) ++
    (if cfg.checkColumnReferences then
       columnValidate cfg cache driver (some parsed) ext
     else []) ++
    styleValidate cfg parsed ++
    (if cfg.warnOnSelectStar then checkSelectStar cfg parsed else []) ++
    (if cfg.warnOnUnusedAlias then checkUnusedAliases cfg parsed ext aliasOrder
     else []) ++
    (if cfg.warnOnImplicitJoin then checkImplicitJoins (flattenTokens parsed)
     else [])

/-- Linter.limitDiagnostics. -/
def limitDiagnostics (cfg : Config) (ds : List Diagnostic) : List Diagnostic :=
  if cfg.maxDiagnostics > 0 ∧ (ds.length : Int) > cfg.maxDiagnostics then
    ds.take cfg.maxDiagnostics.toNat
  else ds

/-- Linter.Lint: the public entry point.  `parsed` is the result of the
external `parser.Parse(text)` (`none` with message `parseErr` when parsing
fails); the pair mirrors the Go `([]diagnostic.Diagnostic, error)` return. -/
def lint (cfg : Config) (cache : Option DBCache) (driver : String)
    (parsed : Option Node) (parseErr : String) (ext : Extract)
    (aliasOrder : List (String × Ident)) : List Diagnostic × Option String :=
  if ¬cfg.enabled then ([], none)
  else
    match parsed with
    | none =>
        (limitDiagnostics cfg
          [mkDiag .error ⟨0, 0⟩ ⟨0, 0⟩ codeSyntaxError
            ("Failed to parse SQL: " ++ parseErr)],
          none)
    | some p =>
        (limitDiagnostics cfg (runValidators cfg cache driver p ext aliasOrder), none)

/-! ### The FROM-span scan of the specification

The specification describes implicit-join detection as a scan that starts a
FROM span at a `FROM` keyword, ends it at the next `JOIN`/`WHERE`/`ON`, and
tracks the last top-level comma inside a span.  `lastFromComma` is that scan
written as recursion over the token stream (state: inside a FROM span, last
tracked comma); it is compared with the fold inside `checkImplicitJoins`. -/

def lastFromComma : Bool → Option SQLToken → List SQLToken → Option SQLToken
  | _, acc, [] => acc
  | inFrom, acc, t :: rest =>
      if t.kind = TokenKind.sqlKeyword then
        match t.word with
        | some w =>
            let up := strUpper w
            if up = "FROM" then lastFromComma true none rest
            else if up = "JOIN" ∨ up = "WHERE" ∨ up = "ON" then
              lastFromComma false acc rest
            else lastFromComma inFrom acc rest
        | none => lastFromComma inFrom acc rest
      else if inFrom ∧ t.kind = TokenKind.comma then lastFromComma inFrom (some t) rest
      else lastFromComma inFrom acc rest

/-! ### Concrete fixtures

Small documents, token streams and catalogs used to instantiate the
theorems on concrete inputs. -/

/-- A keyword token (kind SQLKeyword, with its SQLWord keyword). -/
def kwTok (w : String) (line col : Int) : SQLToken :=
  ⟨.sqlKeyword, w, some w, ⟨line, col⟩, ⟨line, col + w.length⟩⟩

/-- A plain identifier-ish token. -/
def idTok (s : String) (line col : Int) : SQLToken :=
  ⟨.other, s, none, ⟨line, col⟩, ⟨line, col + s.length⟩⟩

/-- A plain identifier node. -/
def mkIdent (s : String) (line col : Int) : Ident :=
  ⟨s, idTok s line col, false⟩

/-- A comma token. -/
def commaTok (line col : Int) : SQLToken :=
  ⟨.comma, ",", none, ⟨line, col⟩, ⟨line, col + 1⟩⟩

/-- A semicolon token. -/
def semiTok (line col : Int) : SQLToken :=
  ⟨.semicolon, ";", none, ⟨line, col⟩, ⟨line, col + 1⟩⟩

/-- Empty extraction results (document with no extracted nodes). -/
def emptyExtract : Extract := ⟨[], [], [], [], [], []⟩

/-- Catalog for `SELECT id FROM users, orders`: both tables carry an `id`
column. -/
def exCache : DBCache :=
  { sortedTables := ["users", "orders"]
    sortedSchemas := []
    schemaTables := []
    columnDescs := fun s =>
      if s == "users" then some [⟨"users", "id"⟩, ⟨"users", "name"⟩]
      else if s == "orders" then some [⟨"orders", "id"⟩, ⟨"orders", "user_id"⟩]
      else none
    columnDatabase := fun _ _ => none }

/-- The FROM list of `SELECT id FROM users, orders`. -/
def exList : Node :=
  .identList [.ident (mkIdent "users" 1 16), .tok (commaTok 1 21),
    .ident (mkIdent "orders" 1 23)]

/-- The parsed statement `SELECT id FROM users, orders`. -/
def exParsed : Node :=
  .stmt [.tok (kwTok "SELECT" 1 1), .ident (mkIdent "id" 1 8),
    .tok (kwTok "FROM" 1 11), exList]

/-- Extraction results for `SELECT id FROM users, orders`: the FROM list is
the table-references node, the `id` identifier is the SELECT expression. -/
def exExt : Extract := ⟨[exList], [], [], [.ident (mkIdent "id" 1 8)], [], []⟩

/-- Catalog with one schema `main` holding one table `users`, used for the
schema-validation claims. -/
def c8cache : DBCache :=
  { sortedTables := ["users"]
    sortedSchemas := ["main"]
    schemaTables := [("main", ["users"])]
    columnDescs := fun _ => none
    columnDatabase := fun _ _ => none }

/-- First statement of `SELECT a FROM t1, t2; SELECT b FROM t3, t4`. -/
def c6stmt1 : List SQLToken :=
  [kwTok "SELECT" 1 1, idTok "a" 1 8, kwTok "FROM" 1 10, idTok "t1" 1 15,
    commaTok 1 17, idTok "t2" 1 19]

/-- Second statement of `SELECT a FROM t1, t2; SELECT b FROM t3, t4`. -/
def c6stmt2 : List SQLToken :=
  [kwTok "SELECT" 1 23, idTok "b" 1 30, kwTok "FROM" 1 32, idTok "t3" 1 37,
    commaTok 1 39, idTok "t4" 1 41]

/-- The whole token stream of the two-statement document. -/
def c6toks : List SQLToken := c6stmt1 ++ [semiTok 1 21] ++ c6stmt2

/-- The implicit-join warning message. -/
def implicitJoinMsg : String :=
  "Implicit join detected, consider using explicit JOIN syntax"

/-- Alias identifier `a` of `t1 AS a`. -/
def c2identA : Ident := mkIdent "a" 1 21

/-- Alias identifier `b` of `t2 AS b`. -/
def c2identB : Ident := mkIdent "b" 1 31

/-- The aliased table reference `t1 AS a`. -/
def c2aliasedA : Node :=
  .aliased (.ident (mkIdent "t1" 1 15)) (some (.ident c2identA)) ⟨1, 15⟩ ⟨1, 22⟩

/-- The aliased table reference `t2 AS b`. -/
def c2aliasedB : Node :=
  .aliased (.ident (mkIdent "t2" 1 25)) (some (.ident c2identB)) ⟨1, 25⟩ ⟨1, 32⟩

/-- The parsed statement `SELECT 1 FROM t1 AS a, t2 AS b` (both aliases
unused: no qualified reference occurs). -/
def c2parsed : Node :=
  .stmt [.tok (kwTok "SELECT" 1 1), .tok (idTok "1" 1 8), .tok (kwTok "FROM" 1 10),
    .identList [c2aliasedA, .tok (commaTok 1 23), c2aliasedB]]

/-- Extraction results for the two-alias document. -/
def c2ext : Extract :=
  ⟨[.identList [c2aliasedA, .tok (commaTok 1 23), c2aliasedB]], [], [], [], [],
    [c2aliasedA, c2aliasedB]⟩

/-- Default configuration with unused-alias warnings switched on. -/
def c2cfg : Config := { defaultConfig with warnOnUnusedAlias := true }

/-- The alias definitions of the two-alias document, in insertion order. -/
def c2order1 : List (String × Ident) := unusedAliasDefs c2ext

/-- The same definitions in the opposite iteration order. -/
def c2order2 : List (String × Ident) := c2order1.reverse

/-! ### Helper lemmas -/

/-- Truncation never drops anything from a single-diagnostic list. -/
theorem limitDiagnostics_singleton (cfg : Config) (d : Diagnostic) :
    limitDiagnostics cfg [d] = [d] := by
  unfold limitDiagnostics
  split
  · next h =>
      exfalso
      simp only [List.length_cons, List.length_nil] at h
      omega
  · rfl

/-- The fold inside checkImplicitJoins computes the FROM-span scan described
by the specification. -/
theorem foldl_implicitJoinStep (toks : List SQLToken) :
    ∀ (b : Bool) (acc : Option SQLToken),
      (toks.foldl implicitJoinStep (b, acc)).2 = lastFromComma b acc toks := by
  induction toks with
  | nil => intro b acc; rfl
  | cons t rest ih =>
      intro b acc
      have h :
          (rest.foldl implicitJoinStep (implicitJoinStep (b, acc) t)).2 =
            lastFromComma (implicitJoinStep (b, acc) t).1
              (implicitJoinStep (b, acc) t).2 rest := by
        have := ih (implicitJoinStep (b, acc) t).1 (implicitJoinStep (b, acc) t).2
        simpa using this
      rw [List.foldl_cons, h]
      show lastFromComma (implicitJoinStep (b, acc) t).1
          (implicitJoinStep (b, acc) t).2 rest = lastFromComma b acc (t :: rest)
      by_cases hk : t.kind = TokenKind.sqlKeyword
      · cases hw : t.word with
        | none => simp [implicitJoinStep, lastFromComma, hk, hw]
        | some w =>
            by_cases hf : strUpper w = "FROM"
            · simp [implicitJoinStep, lastFromComma, hk, hw, hf]
            · by_cases hj : strUpper w = "JOIN" ∨ strUpper w = "WHERE" ∨
                  strUpper w = "ON"
              · simp [implicitJoinStep, lastFromComma, hk, hw, hf, hj]
              · simp [implicitJoinStep, lastFromComma, hk, hw, hf, hj]
      · by_cases hc : b ∧ t.kind = TokenKind.comma
        · simp [implicitJoinStep, lastFromComma, hk, hc]
        · simp [implicitJoinStep, lastFromComma, hk, hc]

/-- Without a catalog the table validator is a no-op. -/
theorem tableValidate_none (cfg : Config) (parsed : Option Node) (ext : Extract) :
    tableValidate cfg none parsed ext = [] := by
  unfold tableValidate
  split <;> rfl

/-- Without a catalog the column validator is a no-op. -/
theorem columnValidate_none (cfg : Config) (driver : String) (parsed : Option Node)
    (ext : Extract) : columnValidate cfg none driver parsed ext = [] := by
  unfold columnValidate
  split <;> rfl

/-- The syntax validator only emits null-comparison diagnostics. -/
theorem syntaxValidate_codes (cfg : Config) (p : Node) :
    ∀ d ∈ syntaxValidate cfg p, d.code = codeNullComparison := by
  intro d hd
  unfold syntaxValidate checkNullComparisons at hd
  split at hd
  · simp at hd
  · rw [List.mem_flatMap] at hd
    obtain ⟨n, _, hdn⟩ := hd
    cases n <;> simp at hdn
    next =>
      rw [hdn.2]
      rfl

/-- The style validator only emits reserved-word-case and missing-semicolon
diagnostics. -/
theorem styleValidate_codes (cfg : Config) (p : Node) :
    ∀ d ∈ styleValidate cfg p,
      d.code = codeReservedWordCase ∨ d.code = codeMissingSemicolon := by
  intro d hd
  unfold styleValidate at hd
  rw [List.mem_append] at hd
  rcases hd with hd | hd
  · left
    split at hd
    · unfold checkReservedWordCase at hd
      rw [List.mem_flatMap] at hd
      obtain ⟨t, _, hdt⟩ := hd
      unfold reservedWordCaseDiags at hdt
      dsimp only at hdt
      split at hdt
      · split at hdt
        · simp at hdt
          rw [hdt]; rfl
        · split at hdt <;> simp at hdt
          rw [hdt]; rfl
      · simp at hdt
    · simp at hd
  · right
    split at hd
    · unfold checkMissingSemicolon at hd
      rw [List.mem_flatMap] at hd
      obtain ⟨n, _, hdn⟩ := hd
      cases n <;> (try simp at hdn)
      next =>
        split at hdn
        · simp at hdn
        · split at hdn <;> simp at hdn
          rw [hdn]; rfl
    · simp at hd

/-- The select-star check only emits select-star diagnostics. -/
theorem checkSelectStar_codes (cfg : Config) (p : Node) :
    ∀ d ∈ checkSelectStar cfg p, d.code = codeSelectStar := by
  intro d hd
  unfold checkSelectStar at hd
  split at hd
  · simp at hd
  · rw [List.mem_flatMap] at hd
    obtain ⟨n, _, hdn⟩ := hd
    cases n <;> simp at hdn
    next =>
      split at hdn <;> simp at hdn
      rw [hdn]; rfl

/-- The unused-alias check only emits unused-alias diagnostics. -/
theorem checkUnusedAliases_codes (cfg : Config) (p : Node) (ext : Extract)
    (aliasOrder : List (String × Ident)) :
    ∀ d ∈ checkUnusedAliases cfg p ext aliasOrder, d.code = codeUnusedAlias := by
  intro d hd
  unfold checkUnusedAliases at hd
  split at hd
  · simp at hd
  · dsimp only at hd
    split at hd
    · simp at hd
    · rw [List.mem_flatMap] at hd
      obtain ⟨e, _, hde⟩ := hd
      split at hde <;> simp at hde
      rw [hde]; rfl

/-- Implicit-join detection only emits implicit-join diagnostics. -/
theorem checkImplicitJoins_codes (toks : List SQLToken) :
    ∀ d ∈ checkImplicitJoins toks, d.code = codeImplicitJoin := by
  intro d hd
  unfold checkImplicitJoins at hd
  split at hd <;> simp at hd
  rw [hd]; rfl

/-- Truncation returns a subset of the accumulated diagnostics. -/
theorem limitDiagnostics_subset (cfg : Config) (ds : List Diagnostic) :
    ∀ d ∈ limitDiagnostics cfg ds, d ∈ ds := by
  intro d hd
  unfold limitDiagnostics at hd
  split at hd
  · exact (List.take_sublist _ _).subset hd
  · exact hd

/-- Lookup on the empty association list. -/
theorem alookup_nil {α : Type} (k : String) : alookup ([] : List (String × α)) k = none :=
  rfl

/-- Lookup steps over the head binding. -/
theorem alookup_cons {α : Type} (e : String × α) (m : List (String × α))
    (k : String) :
    alookup (e :: m) k = if e.1 == k then some e.2 else alookup m k := by
  unfold alookup
  rw [List.find?_cons]
  cases he : e.1 == k <;> simp [he]

/-- Looking up the freshly assigned key finds the new value, as in a Go
map. -/
theorem alookup_ainsert_self {α : Type} (m : List (String × α)) (k : String)
    (v : α) : alookup (ainsert m k v) k = some v := by
  unfold ainsert
  split
  · next hany =>
      induction m with
      | nil => simp at hany
      | cons e rest ih =>
          rw [List.map_cons]
          by_cases he : e.1 == k
          · rw [if_pos he, alookup_cons]
            simp
          · rw [if_neg he, alookup_cons]
            have hrest : rest.any (fun x => x.1 == k) = true := by
              simp only [List.any_cons, he] at hany
              simpa using hany
            rw [if_neg (by simpa using he)]
            exact ih hrest
  · next hany =>
      induction m with
      | nil => simp [alookup_cons]
      | cons e rest ih =>
          have hhead : ¬(e.1 == k) = true := by
            intro hbeq
            exact hany (by simp [List.any_cons, hbeq])
          have hrest : ¬(rest.any fun x => x.1 == k) = true := by
            intro hr
            exact hany (by simp [List.any_cons, hr])
          rw [List.cons_append, alookup_cons, if_neg hhead]
          exact ih hrest

/-- Replacing the value at one key (the in-place half of `ainsert`) leaves
every other lookup unchanged. -/
theorem alookup_map_replace {α : Type} (m : List (String × α)) (k k' : String)
    (v : α) (h : k' ≠ k) :
    alookup (m.map fun e => if e.1 == k then (k, v) else e) k' = alookup m k' := by
  induction m with
  | nil => rfl
  | cons e rest ih =>
      rw [List.map_cons, alookup_cons (e := e)]
      by_cases he : e.1 == k
      · have he' : ¬(e.1 == k') = true := by
          simp only [beq_iff_eq] at he ⊢
          rw [he]
          exact fun hk => h hk.symm
        have hkk : ¬((k : String) == k') = true := by
          simp only [beq_iff_eq]
          exact fun hk => h hk.symm
        rw [if_pos he, alookup_cons, if_neg hkk, if_neg he']
        exact ih
      · rw [if_neg he, alookup_cons]
        by_cases he' : e.1 == k'
        · rw [if_pos he', if_pos he']
        · rw [if_neg he', if_neg he']
          exact ih

/-- Appending a binding for a different key leaves a lookup unchanged. -/
theorem alookup_append_single_ne {α : Type} (m : List (String × α))
    (k k' : String) (v : α) (h : k' ≠ k) :
    alookup (m ++ [(k, v)]) k' = alookup m k' := by
  have hkk : ¬((k : String) == k') = true := by
    simp only [beq_iff_eq]
    exact fun hk => h hk.symm
  induction m with
  | nil => simp [alookup_cons, alookup_nil, hkk]
  | cons e rest ih =>
      rw [List.cons_append, alookup_cons, alookup_cons]
      by_cases he' : e.1 == k'
      · rw [if_pos he', if_pos he']
      · rw [if_neg he', if_neg he']
        exact ih

/-- Assigning one key leaves the lookup of every other key unchanged. -/
theorem alookup_ainsert_ne {α : Type} (m : List (String × α)) (k k' : String)
    (v : α) (h : k' ≠ k) : alookup (ainsert m k v) k' = alookup m k' := by
  unfold ainsert
  split
  · exact alookup_map_replace m k k' v h
  · exact alookup_append_single_ne m k k' v h

/-- A lookup that misses means no binding carries the key. -/
theorem alookup_none_not_mem {α : Type} (m : List (String × α)) (k : String)
    (h : alookup m k = none) : ∀ e ∈ m, ¬(e.1 == k) = true := by
  induction m with
  | nil => intro e he; simp at he
  | cons e0 rest ih =>
      rw [alookup_cons] at h
      intro e he
      by_cases h0 : e0.1 == k
      · rw [if_pos h0] at h
        simp at h
      · rw [if_neg h0] at h
        rcases List.mem_cons.mp he with rfl | he'
        · exact h0
        · exact ih h e he'

/-- When the key is fresh, a Go map assignment is an append. -/
theorem ainsert_fresh {α : Type} (m : List (String × α)) (k : String) (v : α)
    (h : alookup m k = none) : ainsert m k v = m ++ [(k, v)] := by
  unfold ainsert
  rw [if_neg]
  intro hany
  obtain ⟨e, hmem, hbeq⟩ := List.any_eq_true.mp hany
  exact alookup_none_not_mem m k h e hmem hbeq

/-- Fresh-key assignment seen through lookups on appends. -/
theorem alookup_append_left {α : Type} (m₁ m₂ : List (String × α)) (k : String)
    (h : alookup m₁ k = none) : alookup (m₁ ++ m₂) k = alookup m₂ k := by
  induction m₁ with
  | nil => rfl
  | cons e rest ih =>
      rw [alookup_cons] at h
      rw [List.cons_append, alookup_cons]
      by_cases he : e.1 == k
      · rw [if_pos he] at h
        simp at h
      · rw [if_neg he] at h ⊢
        exact ih h

/-- A binding present on the left of an append wins. -/
theorem alookup_append_some {α : Type} (m₁ m₂ : List (String × α)) (k : String)
    (v : α) (h : alookup m₁ k = some v) : alookup (m₁ ++ m₂) k = some v := by
  induction m₁ with
  | nil => simp [alookup_nil] at h
  | cons e rest ih =>
      rw [alookup_cons] at h
      rw [List.cons_append, alookup_cons]
      by_cases he : e.1 == k
      · rw [if_pos he] at h ⊢
        exact h
      · rw [if_neg he] at h ⊢
        exact ih h

/-- Adding one descriptor extends exactly the per-name group of its
lower-cased name. -/
theorem alookup_allColumnsAdd (m : List (String × List ColumnDesc))
    (col : ColumnDesc) (k : String) :
    (alookup (allColumnsAdd m col) k).getD [] =
      (alookup m k).getD [] ++ (if strLower col.name == k then [col] else []) := by
  unfold allColumnsAdd
  dsimp only
  by_cases hk : strLower col.name = k
  · subst hk
    cases halo : alookup m (strLower col.name) with
    | some ex =>
        dsimp only
        rw [alookup_ainsert_self]
        simp
    | none =>
        dsimp only
        rw [alookup_ainsert_self]
        simp
  · have hk' : ¬(strLower col.name == k) = true := by simpa using hk
    have hk'' : k ≠ strLower col.name := fun h => hk h.symm
    cases halo : alookup m (strLower col.name) with
    | some ex =>
        dsimp only
        rw [alookup_ainsert_ne _ _ _ _ hk'']
        simp [hk']
    | none =>
        dsimp only
        rw [alookup_ainsert_ne _ _ _ _ hk'']
        simp [hk']

/-- Merging a column list into `allColumns` appends, per key, exactly the
descriptors whose lower-cased name is that key, in order. -/
theorem alookup_foldl_allColumnsAdd (cols : List ColumnDesc)
    (m : List (String × List ColumnDesc)) (k : String) :
    (alookup (cols.foldl allColumnsAdd m) k).getD [] =
      (alookup m k).getD [] ++ cols.filter (fun col => strLower col.name == k) := by
  induction cols generalizing m with
  | nil => simp
  | cons col rest ih =>
      rw [List.foldl_cons, ih, alookup_allColumnsAdd]
      rw [List.filter_cons]
      by_cases hc : strLower col.name == k
      · rw [if_pos hc, if_pos hc]
        simp
      · rw [if_neg hc, if_neg hc]
        simp

/-- Lookup characterization of `tableColumns` through one build step. -/
theorem step_tableColumns_lookup (c : DBCache) (ctx : ColumnContextL)
    (ti : TableInfo) (k : String) (hk : k ≠ strLower ti.name) :
    alookup (buildColumnContextStep c ctx ti).tableColumns k =
      alookup ctx.tableColumns k := by
  unfold buildColumnContextStep
  split
  · split
    · exact alookup_ainsert_ne _ _ _ _ hk
    · rfl
  · rfl

/-- Lookup characterization of `tableAliases` through one build step, away
from both keys the step may write. -/
theorem step_tableAliases_lookup (c : DBCache) (ctx : ColumnContextL)
    (ti : TableInfo) (k : String) (hk : k ≠ strLower ti.name)
    (ha : ti.aliasName ≠ "" → k ≠ strLower ti.aliasName) :
    alookup (buildColumnContextStep c ctx ti).tableAliases k =
      alookup ctx.tableAliases k := by
  unfold buildColumnContextStep
  split
  · split
    · rw [alookup_ainsert_ne _ _ _ _ hk]
      split
      · next hal => exact alookup_ainsert_ne _ _ _ _ (ha hal)
      · rfl
    · rfl
  · rfl

/-- `tableAliases` lookups that hit never go missing through later steps. -/
theorem step_tableAliases_isSome (c : DBCache) (ctx : ColumnContextL)
    (ti : TableInfo) (k : String)
    (h : (alookup ctx.tableAliases k).isSome = true) :
    (alookup (buildColumnContextStep c ctx ti).tableAliases k).isSome = true := by
  unfold buildColumnContextStep
  split
  · split
    · by_cases hk : k = strLower ti.name
      · subst hk
        rw [alookup_ainsert_self]
        rfl
      · rw [alookup_ainsert_ne _ _ _ _ hk]
        split
        · by_cases hk2 : k = strLower ti.aliasName
          · subst hk2
            rw [alookup_ainsert_self]
            rfl
          · rw [alookup_ainsert_ne _ _ _ _ hk2]
            exact h
        · exact h
    · exact h
  · exact h

/-- A `tableAliases` binding survives a fold over tables that touch neither
its key as a name nor as an alias. -/
theorem foldl_tableAliases_preserved (c : DBCache) (ts : List TableInfo) :
    ∀ (ctx : ColumnContextL) (k : String) (v : String),
      alookup ctx.tableAliases k = some v →
      (∀ ti ∈ ts, k ≠ strLower ti.name ∧ (ti.aliasName ≠ "" → k ≠ strLower ti.aliasName)) →
      alookup (ts.foldl (buildColumnContextStep c) ctx).tableAliases k = some v := by
  induction ts with
  | nil => intro ctx k v h _; exact h
  | cons t rest ih =>
      intro ctx k v h hsafe
      rw [List.foldl_cons]
      refine ih _ k v ?_ fun ti hti => hsafe ti (List.mem_cons_of_mem t hti)
      rw [step_tableAliases_lookup c ctx t k (hsafe t (List.mem_cons_self t rest)).1
        (hsafe t (List.mem_cons_self t rest)).2]
      exact h

/-- A missing `tableColumns` key stays missing through a fold over tables
with other names. -/
theorem foldl_tableColumns_none (c : DBCache) (ts : List TableInfo) :
    ∀ (ctx : ColumnContextL) (k : String),
      alookup ctx.tableColumns k = none →
      (∀ ti ∈ ts, k ≠ strLower ti.name) →
      alookup (ts.foldl (buildColumnContextStep c) ctx).tableColumns k = none := by
  induction ts with
  | nil => intro ctx k h _; exact h
  | cons t rest ih =>
      intro ctx k h hne
      rw [List.foldl_cons]
      refine ih _ k ?_ fun ti hti => hne ti (List.mem_cons_of_mem t hti)
      rw [step_tableColumns_lookup c ctx t k (hne t (List.mem_cons_self t rest))]
      exact h

/-- The generalized build invariant: starting from a context that already
satisfies the grouping property and is fresh for the remaining tables, the
fold preserves (i) every `tableColumns` key having a `tableAliases` entry,
establishes (ii) the canonical-name mapping for every processed table, and
maintains (iii) `allColumns` being exactly the name-grouped union of the
`tableColumns` entries. -/
theorem buildColumnContext_aux (c : DBCache) (ts : List TableInfo) :
    ∀ ctx : ColumnContextL,
      ((ts.map fun ti => strLower ti.name).Nodup) →
      (∀ ti ∈ ts, ti.aliasName ≠ "" → ∀ tj ∈ ts, strLower ti.aliasName ≠ strLower tj.name) →
      (∀ ti ∈ ts, alookup ctx.tableColumns (strLower ti.name) = none) →
      (∀ e ∈ ctx.tableColumns, (alookup ctx.tableAliases e.1).isSome = true) →
      (∀ k, (alookup ctx.allColumns k).getD [] =
        (ctx.tableColumns.flatMap (·.2)).filter fun col => strLower col.name == k) →
      (∀ e ∈ (ts.foldl (buildColumnContextStep c) ctx).tableColumns,
        (alookup (ts.foldl (buildColumnContextStep c) ctx).tableAliases e.1).isSome
          = true) ∧
      (∀ ti ∈ ts, ∀ cols0,
        alookup (ts.foldl (buildColumnContextStep c) ctx).tableColumns
          (strLower ti.name) = some cols0 →
        alookup (ts.foldl (buildColumnContextStep c) ctx).tableAliases
          (strLower ti.name) = some ti.name) ∧
      (∀ k, (alookup (ts.foldl (buildColumnContextStep c) ctx).allColumns k).getD [] =
        ((ts.foldl (buildColumnContextStep c) ctx).tableColumns.flatMap (·.2)).filter
          fun col => strLower col.name == k) := by
  induction ts with
  | nil =>
      intro ctx _ _ _ hTA hb
      exact ⟨hTA, by intro ti hti; simp at hti, hb⟩
  | cons t rest ih =>
      intro ctx hnd hsafe hfresh hTA hb
      rw [List.map_cons, List.nodup_cons] at hnd
      obtain ⟨hknotin, hndrest⟩ := hnd
      have hsaferest : ∀ ti ∈ rest, ti.aliasName ≠ "" →
          ∀ tj ∈ rest, strLower ti.aliasName ≠ strLower tj.name := fun ti hti hal tj htj =>
        hsafe ti (List.mem_cons_of_mem t hti) hal tj (List.mem_cons_of_mem t htj)
      have hfresht := hfresh t (List.mem_cons_self t rest)
      have hrestkeys : ∀ ti ∈ rest, strLower t.name ≠ strLower ti.name := by
        intro ti hti heq
        exact hknotin (heq ▸ List.mem_map_of_mem (fun tj => strLower tj.name) hti)
      rw [List.foldl_cons]
      cases hcf : contextColsFor c t with
      | none =>
          have hstep : buildColumnContextStep c ctx t = ctx := by
            unfold buildColumnContextStep
            rw [hcf]
          rw [hstep]
          have hres := ih ctx hndrest hsaferest
            (fun ti hti => hfresh ti (List.mem_cons_of_mem t hti)) hTA hb
          refine ⟨hres.1, ?_, hres.2.2⟩
          intro ti hti cols0 hlk
          rcases List.mem_cons.mp hti with rfl | hti'
          · exfalso
            have : alookup (rest.foldl (buildColumnContextStep c) ctx).tableColumns
                (strLower ti.name) = none :=
              foldl_tableColumns_none c rest ctx (strLower ti.name) hfresht
                (fun tj htj h => hrestkeys tj htj h)
            rw [this] at hlk
            exact Option.noConfusion hlk
          · exact hres.2.1 ti hti' cols0 hlk
      | some cols =>
          by_cases hne : cols ≠ []
          · have hstep : buildColumnContextStep c ctx t =
                ⟨ainsert ctx.tableColumns (strLower t.name) cols,
                  ainsert
                    (if t.aliasName ≠ "" then
                      ainsert ctx.tableAliases (strLower t.aliasName) t.name
                     else ctx.tableAliases)
                    (strLower t.name) t.name,
                  cols.foldl allColumnsAdd ctx.allColumns⟩ := by
              unfold buildColumnContextStep
              rw [hcf]
              dsimp only
              rw [if_pos hne]
            have hTC2 : (buildColumnContextStep c ctx t).tableColumns =
                ctx.tableColumns ++ [(strLower t.name, cols)] := by
              rw [hstep]
              exact ainsert_fresh _ _ _ hfresht
            have hTAkey : alookup (buildColumnContextStep c ctx t).tableAliases
                (strLower t.name) = some t.name := by
              rw [hstep]
              exact alookup_ainsert_self _ _ _
            have hfresh2 : ∀ ti ∈ rest,
                alookup (buildColumnContextStep c ctx t).tableColumns
                  (strLower ti.name) = none := by
              intro ti hti
              rw [step_tableColumns_lookup c ctx t _ fun h => hrestkeys ti hti h.symm]
              exact hfresh ti (List.mem_cons_of_mem t hti)
            have hTA2 : ∀ e ∈ (buildColumnContextStep c ctx t).tableColumns,
                (alookup (buildColumnContextStep c ctx t).tableAliases e.1).isSome
                  = true := by
              intro e he
              rw [hTC2] at he
              rcases List.mem_append.mp he with he' | he'
              · exact step_tableAliases_isSome c ctx t e.1 (hTA e he')
              · have : e = (strLower t.name, cols) := by simpa using he'
                rw [this, hTAkey]
                rfl
            have hb2 : ∀ k,
                (alookup (buildColumnContextStep c ctx t).allColumns k).getD [] =
                  ((buildColumnContextStep c ctx t).tableColumns.flatMap (·.2)).filter
                    (fun col => strLower col.name == k) := by
              intro k
              rw [hTC2]
              have hac : (buildColumnContextStep c ctx t).allColumns =
                  cols.foldl allColumnsAdd ctx.allColumns := by rw [hstep]
              rw [hac, alookup_foldl_allColumnsAdd, hb k, List.flatMap_append,
                List.filter_append]
              simp
            have hres := ih (buildColumnContextStep c ctx t) hndrest hsaferest hfresh2
              hTA2 hb2
            refine ⟨hres.1, ?_, hres.2.2⟩
            intro ti hti cols0 _
            rcases List.mem_cons.mp hti with rfl | hti'
            · refine foldl_tableAliases_preserved c rest _ _ _ hTAkey ?_
              intro tj htj
              refine ⟨hrestkeys tj htj, fun hal heq => ?_⟩
              exact hsafe tj (List.mem_cons_of_mem _ htj) hal _
                (List.mem_cons_self _ rest) heq.symm
            · exact hres.2.1 ti hti' cols0 (by assumption)
          · have hstep : buildColumnContextStep c ctx t = ctx := by
              unfold buildColumnContextStep
              rw [hcf]
              dsimp only
              rw [if_neg hne]
            rw [hstep]
            have hres := ih ctx hndrest hsaferest
              (fun ti hti => hfresh ti (List.mem_cons_of_mem t hti)) hTA hb
            refine ⟨hres.1, ?_, hres.2.2⟩
            intro ti hti cols0 hlk
            rcases List.mem_cons.mp hti with rfl | hti'
            · exfalso
              have : alookup (rest.foldl (buildColumnContextStep c) ctx).tableColumns
                  (strLower ti.name) = none :=
                foldl_tableColumns_none c rest ctx (strLower ti.name) hfresht
                  (fun tj htj h => hrestkeys tj htj h)
              rw [this] at hlk
              exact Option.noConfusion hlk
            · exact hres.2.1 ti hti' cols0 hlk

/-! ### Anchoring machinery for the column sweeps -/

/-- The LSP start position a diagnostic anchored at token position `p`
carries (`posToRange` start component). -/
def startOfPos (p : Pos) : Position := ⟨p.line - 1, p.col - 1⟩

/-- Anchoring as a filter predicate. -/
def anchoredAt (p : Pos) (d : Diagnostic) : Bool := decide (d.range.start = startOfPos p)

/-- Two token positions with the same anchor are equal. -/
theorem startOfPos_inj {p v : Pos} (h : startOfPos p = startOfPos v) : p = v := by
  cases p with
  | mk pl pc =>
      cases v with
      | mk vl vc =>
          simp only [startOfPos, Position.mk.injEq] at h
          have h1 : pl = vl := by omega
          have h2 : pc = vc := by omega
          rw [h1, h2]

/-- A built diagnostic is anchored at its start position. -/
theorem mkDiag_start (sev : DiagnosticSeverity) (a b : Pos) (code msg : String) :
    (mkDiag sev a b code msg).range.start = startOfPos a := rfl

/-- Filtering distributes over flatMap. -/
theorem filter_flatMap {α β : Type} (L : List α) (h : α → List β) (p : β → Bool) :
    (L.flatMap h).filter p = L.flatMap fun n => (h n).filter p := by
  induction L with
  | nil => rfl
  | cons x xs ih => rw [List.flatMap_cons, List.filter_append, ih, List.flatMap_cons]

/-- A flatMap of everywhere-empty emissions is empty. -/
theorem flatMap_nil_of_all {α β : Type} (L : List α) (g : α → List β)
    (h : ∀ n ∈ L, g n = []) : L.flatMap g = [] := by
  induction L with
  | nil => rfl
  | cons x xs ih =>
      rw [List.flatMap_cons, h x (List.mem_cons_self x xs),
        ih fun n hn => h n (List.mem_cons_of_mem x hn)]
      rfl

/-- A flatMap collapses to the emission of the single element selected by a
filter, when unselected elements emit nothing. -/
theorem flatMap_of_filter_singleton {α β : Type} (L : List α) (pr : α → Bool)
    (g : α → List β) (m : α) (hL : L.filter pr = [m])
    (hz : ∀ n ∈ L, pr n = false → g n = []) : L.flatMap g = g m := by
  induction L with
  | nil => simp at hL
  | cons x xs ih =>
      rw [List.filter_cons] at hL
      rw [List.flatMap_cons]
      by_cases hx : pr x
      · rw [if_pos hx] at hL
        obtain ⟨hxm, hrest⟩ := List.cons.injEq .. ▸ hL
        have hxs : xs.flatMap g = [] := by
          refine flatMap_nil_of_all xs g fun n hn => ?_
          cases hpn : pr n with
          | false => exact hz n (List.mem_cons_of_mem x hn) hpn
          | true =>
              exfalso
              have : n ∈ xs.filter pr := List.mem_filter.mpr ⟨hn, hpn⟩
              rw [hrest] at this
              exact absurd this (List.not_mem_nil n)
        rw [hxs, hxm, List.append_nil]
      · rw [if_neg hx] at hL
        rw [hz x (List.mem_cons_self x xs) (Bool.eq_false_iff.mpr hx), List.nil_append]
        exact ih hL fun n hn => hz n (List.mem_cons_of_mem x hn)

/-- A flatMap is empty when the filter selects nothing and unselected
elements emit nothing. -/
theorem flatMap_of_filter_nil {α β : Type} (L : List α) (pr : α → Bool)
    (g : α → List β) (hL : L.filter pr = [])
    (hz : ∀ n ∈ L, pr n = false → g n = []) : L.flatMap g = [] := by
  refine flatMap_nil_of_all L g fun n hn => ?_
  cases hpn : pr n with
  | false => exact hz n hn hpn
  | true =>
      exfalso
      have : n ∈ L.filter pr := List.mem_filter.mpr ⟨hn, hpn⟩
      rw [hL] at this
      exact absurd this (List.not_mem_nil n)

/-- Bool test: the node is an identifier starting at `p`. -/
def identAtB (p : Pos) : Node → Bool
  | .ident i => decide (i.tok.fromPos = p)
  | _ => false

/-- Bool test: the node is a member identifier one of whose parts starts at
`p`. -/
def memPartAtB (p : Pos) : Node → Bool
  | .member pi ci _ _ =>
      ((pi.map fun i => decide (i.tok.fromPos = p)).getD false) ||
        ((ci.map fun i => decide (i.tok.fromPos = p)).getD false)
  | _ => false

/-- Every emission of the shared unqualified handler comes from an identifier
node, is anchored at that identifier's start position, and that position is
outside the skip set. -/
theorem handleUnqualified_shape (driver : String) (cfg : Config) (skips : List Pos)
    (aliasMap : List (String × String)) (ctx : ColumnContextL) (n : Node) :
    ∀ d ∈ handleUnqualified driver cfg skips aliasMap ctx n,
      ∃ i, n = Node.ident i ∧ d.range.start = startOfPos i.tok.fromPos ∧
        i.tok.fromPos ∉ skips := by
  intro d hd
  cases n with
  | ident i =>
      refine ⟨i, rfl, ?_⟩
      unfold handleUnqualified at hd
      dsimp only at hd
      split at hd
      · simp at hd
      · next hskip =>
          split at hd
          · simp at hd
          · split at hd
            · simp at hd
            · split at hd
              · simp at hd
              · split at hd
                · split at hd
                  · simp at hd
                    rw [hd]
                    exact ⟨rfl, hskip⟩
                  · simp at hd
                · unfold ambiguityDiags at hd
                  split at hd
                  · dsimp only at hd
                    split at hd
                    · simp at hd
                      rw [hd]
                      exact ⟨rfl, hskip⟩
                    · simp at hd
                  · simp at hd
  | member pi ci a b => unfold handleUnqualified at hd; simp at hd
  | aliased r an a b => unfold handleUnqualified at hd; simp at hd
  | identList ts => unfold handleUnqualified at hd; simp at hd
  | stmt ts => unfold handleUnqualified at hd; simp at hd
  | comparison ts => unfold handleUnqualified at hd; simp at hd
  | nlist ts => unfold handleUnqualified at hd; simp at hd
  | tok t => unfold handleUnqualified at hd; simp at hd

/-- Every emission of the whole-statement handler comes from an identifier
node, is anchored at it, and its position is outside the skip set. -/
theorem handleUnqualifiedAll_shape (driver : String) (cfg : Config)
    (skips : List Pos) (aliasMap : List (String × String)) (ctx : ColumnContextL)
    (tables : List TableInfo) (n : Node) :
    ∀ d ∈ handleUnqualifiedAll driver cfg skips aliasMap ctx tables n,
      ∃ i, n = Node.ident i ∧ d.range.start = startOfPos i.tok.fromPos ∧
        i.tok.fromPos ∉ skips := by
  intro d hd
  cases n with
  | ident i =>
      refine ⟨i, rfl, ?_⟩
      unfold handleUnqualifiedAll at hd
      dsimp only at hd
      split at hd
      · simp at hd
      · next hskip =>
          split at hd
          · simp at hd
          · split at hd
            · simp at hd
            · split at hd
              · simp at hd
              · split at hd
                · split at hd
                  · simp at hd
                    rw [hd]
                    exact ⟨rfl, hskip⟩
                  · split at hd
                    · simp at hd
                      rw [hd]
                      exact ⟨rfl, hskip⟩
                    · simp at hd
                · unfold ambiguityDiags at hd
                  split at hd
                  · dsimp only at hd
                    split at hd
                    · simp at hd
                      rw [hd]
                      exact ⟨rfl, hskip⟩
                    · simp at hd
                  · simp at hd
  | member pi ci a b => unfold handleUnqualifiedAll at hd; simp at hd
  | aliased r an a b => unfold handleUnqualifiedAll at hd; simp at hd
  | identList ts => unfold handleUnqualifiedAll at hd; simp at hd
  | stmt ts => unfold handleUnqualifiedAll at hd; simp at hd
  | comparison ts => unfold handleUnqualifiedAll at hd; simp at hd
  | nlist ts => unfold handleUnqualifiedAll at hd; simp at hd
  | tok t => unfold handleUnqualifiedAll at hd; simp at hd

/-- Every emission of the qualified handler comes from a member-identifier
node and is anchored at one of its two parts. -/
theorem handleQualified_shape (c : DBCache) (aliasMap : List (String × String))
    (ctx : ColumnContextL) (tables : List TableInfo) (n : Node) :
    ∀ d ∈ handleQualified c aliasMap ctx tables n,
      ∃ pi ci a b, n = Node.member (some pi) (some ci) a b ∧
        (d.range.start = startOfPos pi.tok.fromPos ∨
          d.range.start = startOfPos ci.tok.fromPos) := by
  intro d hd
  cases n with
  | member po co a b =>
      cases po with
      | none => unfold handleQualified at hd; simp at hd
      | some pi =>
          cases co with
          | none => unfold handleQualified at hd; simp at hd
          | some ci =>
              refine ⟨pi, ci, a, b, rfl, ?_⟩
              unfold handleQualified at hd
              dsimp only at hd
              split at hd
              · simp at hd
                rw [hd]
                exact Or.inl rfl
              · split at hd
                · simp at hd
                · split at hd
                  · simp at hd
                  · split at hd
                    · simp at hd
                    · split at hd
                      · simp at hd
                      · simp at hd
                        rw [hd]
                        exact Or.inr rfl
  | ident i => unfold handleQualified at hd; simp at hd
  | aliased r an a b => unfold handleQualified at hd; simp at hd
  | identList ts => unfold handleQualified at hd; simp at hd
  | stmt ts => unfold handleQualified at hd; simp at hd
  | comparison ts => unfold handleQualified at hd; simp at hd
  | nlist ts => unfold handleQualified at hd; simp at hd
  | tok t => unfold handleQualified at hd; simp at hd

/-- Both part positions of a member identifier in the walk are collected
into the member skip set. -/
theorem memberSkip_of_walk (parsed : Node) (pi ci : Ident) (a b : Pos)
    (hmem : Node.member (some pi) (some ci) a b ∈ walkNodes parsed) :
    pi.tok.fromPos ∈ memberSkipPositions parsed ∧
      ci.tok.fromPos ∈ memberSkipPositions parsed := by
  constructor
  · unfold memberSkipPositions
    rw [List.mem_flatMap]
    exact ⟨Node.member (some pi) (some ci) a b, hmem, by simp⟩
  · unfold memberSkipPositions
    rw [List.mem_flatMap]
    exact ⟨Node.member (some pi) (some ci) a b, hmem, by simp⟩

/-- The member skip positions are part of the full exclusion set. -/
theorem memberSkip_subset_skips (parsed : Node) (ext : Extract) (p : Pos)
    (h : p ∈ memberSkipPositions parsed) : p ∈ computeSkips parsed ext := by
  unfold computeSkips
  exact List.mem_append_left _ (List.mem_append_left _ h)

/-- A skipped position receives nothing from the shared unqualified
handler. -/
theorem handleUnqualified_filter_skip (driver : String) (cfg : Config)
    (skips : List Pos) (aliasMap : List (String × String)) (ctx : ColumnContextL)
    (n : Node) (p : Pos) (hp : p ∈ skips) :
    (handleUnqualified driver cfg skips aliasMap ctx n).filter (anchoredAt p) = [] := by
  rw [List.filter_eq_nil_iff]
  intro d hd
  obtain ⟨i, -, hanch, hnskip⟩ :=
    handleUnqualified_shape driver cfg skips aliasMap ctx n d hd
  unfold anchoredAt
  simp only [decide_eq_true_eq]
  intro heq
  rw [hanch] at heq
  exact hnskip (startOfPos_inj heq ▸ hp)

/-- An identifier position not matching the node receives nothing from the
shared unqualified handler. -/
theorem handleUnqualified_filter_ne (driver : String) (cfg : Config)
    (skips : List Pos) (aliasMap : List (String × String)) (ctx : ColumnContextL)
    (n : Node) (p : Pos) (hno : identAtB p n = false) :
    (handleUnqualified driver cfg skips aliasMap ctx n).filter (anchoredAt p) = [] := by
  rw [List.filter_eq_nil_iff]
  intro d hd
  obtain ⟨i, rfl, hanch, -⟩ :=
    handleUnqualified_shape driver cfg skips aliasMap ctx n d hd
  unfold anchoredAt
  simp only [decide_eq_true_eq]
  intro heq
  rw [hanch] at heq
  have : i.tok.fromPos = p := startOfPos_inj heq
  rw [identAtB, this] at hno
  simp at hno

/-- A skipped position receives nothing from the whole-statement handler. -/
theorem handleUnqualifiedAll_filter_skip (driver : String) (cfg : Config)
    (skips : List Pos) (aliasMap : List (String × String)) (ctx : ColumnContextL)
    (tables : List TableInfo) (n : Node) (p : Pos) (hp : p ∈ skips) :
    (handleUnqualifiedAll driver cfg skips aliasMap ctx tables n).filter
      (anchoredAt p) = [] := by
  rw [List.filter_eq_nil_iff]
  intro d hd
  obtain ⟨i, -, hanch, hnskip⟩ :=
    handleUnqualifiedAll_shape driver cfg skips aliasMap ctx tables n d hd
  unfold anchoredAt
  simp only [decide_eq_true_eq]
  intro heq
  rw [hanch] at heq
  exact hnskip (startOfPos_inj heq ▸ hp)

/-- An identifier position not matching the node receives nothing from the
whole-statement handler. -/
theorem handleUnqualifiedAll_filter_ne (driver : String) (cfg : Config)
    (skips : List Pos) (aliasMap : List (String × String)) (ctx : ColumnContextL)
    (tables : List TableInfo) (n : Node) (p : Pos) (hno : identAtB p n = false) :
    (handleUnqualifiedAll driver cfg skips aliasMap ctx tables n).filter
      (anchoredAt p) = [] := by
  rw [List.filter_eq_nil_iff]
  intro d hd
  obtain ⟨i, rfl, hanch, -⟩ :=
    handleUnqualifiedAll_shape driver cfg skips aliasMap ctx tables n d hd
  unfold anchoredAt
  simp only [decide_eq_true_eq]
  intro heq
  rw [hanch] at heq
  have : i.tok.fromPos = p := startOfPos_inj heq
  rw [identAtB, this] at hno
  simp at hno

/-- A member position not matching the node receives nothing from the
qualified handler. -/
theorem handleQualified_filter_ne (c : DBCache) (aliasMap : List (String × String))
    (ctx : ColumnContextL) (tables : List TableInfo) (n : Node) (p : Pos)
    (hno : memPartAtB p n = false) :
    (handleQualified c aliasMap ctx tables n).filter (anchoredAt p) = [] := by
  rw [List.filter_eq_nil_iff]
  intro d hd
  obtain ⟨pi, ci, a, b, rfl, hanch⟩ :=
    handleQualified_shape c aliasMap ctx tables n d hd
  unfold anchoredAt
  simp only [decide_eq_true_eq]
  intro heq
  rcases hanch with h | h
  · rw [h] at heq
    have hp : pi.tok.fromPos = p := startOfPos_inj heq
    unfold memPartAtB at hno
    simp [hp] at hno
  · rw [h] at heq
    have hp : ci.tok.fromPos = p := startOfPos_inj heq
    unfold memPartAtB at hno
    simp [hp] at hno

/-- The SELECT-list sweep reports nothing at an excluded position. -/
theorem selectSweep_filter_skip (driver : String) (cfg : Config) (skips : List Pos)
    (aliasMap : List (String × String)) (ctx : ColumnContextL) (ext : Extract)
    (p : Pos) (hp : p ∈ skips) :
    (selectSweep driver cfg skips aliasMap ctx ext).filter (anchoredAt p) = [] := by
  unfold selectSweep
  rw [filter_flatMap]
  exact flatMap_nil_of_all _ _ fun n _ =>
    handleUnqualified_filter_skip driver cfg skips aliasMap ctx n p hp

/-- The WHERE sweep reports nothing at an excluded position. -/
theorem whereSweep_filter_skip (driver : String) (cfg : Config) (skips : List Pos)
    (aliasMap : List (String × String)) (ctx : ColumnContextL) (ext : Extract)
    (p : Pos) (hp : p ∈ skips) :
    (whereSweep driver cfg skips aliasMap ctx ext).filter (anchoredAt p) = [] := by
  unfold whereSweep
  rw [filter_flatMap]
  exact flatMap_nil_of_all _ _ fun n _ =>
    handleUnqualified_filter_skip driver cfg skips aliasMap ctx n p hp

/-- The whole-statement sweep reports nothing at an excluded position. -/
theorem allSweep_filter_skip (driver : String) (cfg : Config) (skips : List Pos)
    (aliasMap : List (String × String)) (ctx : ColumnContextL)
    (tables : List TableInfo) (parsed : Node) (p : Pos) (hp : p ∈ skips) :
    (allSweep driver cfg skips aliasMap ctx tables parsed).filter (anchoredAt p)
      = [] := by
  unfold allSweep
  rw [filter_flatMap]
  exact flatMap_nil_of_all _ _ fun n _ =>
    handleUnqualifiedAll_filter_skip driver cfg skips aliasMap ctx tables n p hp

/-- The qualified sweep reports nothing at a position outside the exclusion
set (all of its anchors are member-part positions, which are excluded). -/
theorem qualifiedSweep_filter_notskip (c : DBCache)
    (aliasMap : List (String × String)) (ctx : ColumnContextL)
    (tables : List TableInfo) (parsed : Node) (ext : Extract) (p : Pos)
    (hp : p ∉ computeSkips parsed ext) :
    (qualifiedSweep c aliasMap ctx tables parsed).filter (anchoredAt p) = [] := by
  unfold qualifiedSweep
  rw [filter_flatMap]
  refine flatMap_nil_of_all _ _ fun n hn => ?_
  rw [List.filter_eq_nil_iff]
  intro d hd
  obtain ⟨pi, ci, a, b, rfl, hanch⟩ :=
    handleQualified_shape c aliasMap ctx tables n d hd
  have hskips := memberSkip_of_walk parsed pi ci a b hn
  unfold anchoredAt
  simp only [decide_eq_true_eq]
  intro heq
  rcases hanch with h | h
  · rw [h] at heq
    exact hp (memberSkip_subset_skips parsed ext p
      (startOfPos_inj heq ▸ hskips.1))
  · rw [h] at heq
    exact hp (memberSkip_subset_skips parsed ext p
      (startOfPos_inj heq ▸ hskips.2))

/-- The table list a column pass computes. -/
def colTables (ext : Extract) : List TableInfo := (extractTables ext).1

/-- The alias map a column pass computes. -/
def colAliasMap (ext : Extract) : List (String × String) := (extractTables ext).2

/-- The column context a column pass computes. -/
def colCtx (c : DBCache) (ext : Extract) : ColumnContextL :=
  buildColumnContext c (colTables ext)

/-- With column checks on and a catalog present, the column validator is the
concatenation of its four sweeps over the computed scope. -/
theorem columnValidate_unfolded (cfg : Config) (c : DBCache) (driver : String)
    (parsed : Node) (ext : Extract) (hcc : cfg.checkColumnReferences = true) :
    columnValidate cfg (some c) driver (some parsed) ext =
      qualifiedSweep c (colAliasMap ext) (colCtx c ext) (colTables ext) parsed ++
        selectSweep driver cfg (computeSkips parsed ext) (colAliasMap ext)
          (colCtx c ext) ext ++
        whereSweep driver cfg (computeSkips parsed ext) (colAliasMap ext)
          (colCtx c ext) ext ++
        allSweep driver cfg (computeSkips parsed ext) (colAliasMap ext)
          (colCtx c ext) (colTables ext) parsed := by
  unfold columnValidate colTables colAliasMap colCtx
  rw [if_neg (by simp [hcc])]
  rfl

/-- Evaluation of the qualified handler on a member reference that resolves
to a known, nonempty column set lacking the child column: exactly the
column-not-found diagnostic anchored at the child token. -/
theorem handleQualified_at_member (c : DBCache) (aliasMap : List (String × String))
    (ctx : ColumnContextL) (tables : List TableInfo) (pi ci : Ident) (a b : Pos)
    (cols : List ColumnDesc)
    (hgate : (alookup aliasMap (strLower pi.name)).isSome = true ∨
      (alookup ctx.tableColumns (strLower pi.name)).isSome = true ∨
      tables.any (fun ti => eqFold ti.name pi.name ∨ eqFold ti.aliasName pi.name)
        = true)
    (hwild : ci.wildcard = false) (hstar : ci.name ≠ "*") (hempty : ci.name ≠ "")
    (hcols : qualifiedColsFor ctx c ((alookup aliasMap (strLower pi.name)).getD
      pi.name) = some cols)
    (hne : cols ≠ [])
    (habsent : cols.any (fun col => eqFold col.name ci.name) = false) :
    handleQualified c aliasMap ctx tables (Node.member (some pi) (some ci) a b) =
      [mkDiag .error ci.tok.fromPos ci.tok.toPos codeColumnNotFound
        (formatError codeColumnNotFound
          [ci.name, (alookup aliasMap (strLower pi.name)).getD pi.name])] := by
  unfold handleQualified
  dsimp only
  rw [if_neg (by
    intro hno
    exact hno hgate)]
  rw [if_neg (by
    rintro (h | h | h)
    · rw [hwild] at h
      exact Bool.noConfusion h
    · exact hstar h
    · exact hempty h)]
  rw [hcols]
  dsimp only
  rw [if_neg hne, if_neg (by simp [habsent])]

/-- Evaluation of the shared unqualified handler on an ambiguous identifier:
exactly the ambiguous-column warning with the first-seen distinct tables. -/
theorem handleUnqualified_at_ambiguous (driver : String) (cfg : Config)
    (skips : List Pos) (aliasMap : List (String × String)) (ctx : ColumnContextL)
    (i : Ident) (cols : List ColumnDesc)
    (hskip : i.tok.fromPos ∉ skips) (hlit : isStringLiteral driver i = false)
    (hempty : i.name ≠ "") (hwild : i.wildcard = false)
    (halias : alookup aliasMap (strLower i.name) = none)
    (hcols : alookup ctx.allColumns (strLower i.name) = some cols)
    (hwarn : cfg.warnOnAmbiguousColumn = true) (hlen : cols.length > 1)
    (hnum : (uniqueTables cols).length > 1) :
    handleUnqualified driver cfg skips aliasMap ctx (Node.ident i) =
      [mkDiag .warning i.tok.fromPos i.tok.toPos codeAmbiguousColumn
        (formatError codeAmbiguousColumn
          [i.name, String.intercalate ", " (uniqueTables cols)])] := by
  unfold handleUnqualified
  dsimp only
  rw [if_neg hskip, if_neg (by simp [hlit]),
    if_neg (by
      rintro (h | h)
      · exact hempty h
      · rw [hwild] at h
        exact Bool.noConfusion h),
    if_neg (by simp [halias]), hcols]
  dsimp only
  unfold ambiguityDiags
  rw [if_pos ⟨hlen, hwarn⟩]
  dsimp only
  rw [if_pos hnum]

/-- Evaluation of the whole-statement handler on an ambiguous identifier. -/
theorem handleUnqualifiedAll_at_ambiguous (driver : String) (cfg : Config)
    (skips : List Pos) (aliasMap : List (String × String)) (ctx : ColumnContextL)
    (tables : List TableInfo) (i : Ident) (cols : List ColumnDesc)
    (hskip : i.tok.fromPos ∉ skips) (hlit : isStringLiteral driver i = false)
    (hempty : i.name ≠ "") (hwild : i.wildcard = false)
    (halias : alookup aliasMap (strLower i.name) = none)
    (hcols : alookup ctx.allColumns (strLower i.name) = some cols)
    (hwarn : cfg.warnOnAmbiguousColumn = true) (hlen : cols.length > 1)
    (hnum : (uniqueTables cols).length > 1) :
    handleUnqualifiedAll driver cfg skips aliasMap ctx tables (Node.ident i) =
      [mkDiag .warning i.tok.fromPos i.tok.toPos codeAmbiguousColumn
        (formatError codeAmbiguousColumn
          [i.name, String.intercalate ", " (uniqueTables cols)])] := by
  unfold handleUnqualifiedAll
  dsimp only
  rw [if_neg hskip, if_neg (by simp [hlit]),
    if_neg (by
      rintro (h | h)
      · exact hempty h
      · rw [hwild] at h
        exact Bool.noConfusion h),
    if_neg (by simp [halias]), hcols]
  dsimp only
  unfold ambiguityDiags
  rw [if_pos ⟨hlen, hwarn⟩]
  dsimp only
  rw [if_pos hnum]

/-- The first-seen accumulation grows by at most one entry per descriptor. -/
theorem uniqueTables_length_le (cols : List ColumnDesc) :
    (uniqueTables cols).length ≤ cols.length := by
  have haux : ∀ (cs : List ColumnDesc) (acc : List String),
      (cs.foldl (fun acc col => if col.table ∈ acc then acc else acc ++ [col.table])
        acc).length ≤ acc.length + cs.length := by
    intro cs
    induction cs with
    | nil => intro acc; simp
    | cons col rest ih =>
        intro acc
        rw [List.foldl_cons]
        split
        · calc _ ≤ acc.length + rest.length := ih acc
            _ ≤ acc.length + (col :: rest).length := by simp
        · calc _ ≤ (acc ++ [col.table]).length + rest.length := ih _
            _ = acc.length + (col :: rest).length := by simp; omega
  have := haux cols []
  simpa [uniqueTables] using this

/-- The first-seen accumulation never repeats a table name. -/
theorem uniqueTables_nodup (cols : List ColumnDesc) : (uniqueTables cols).Nodup := by
  have haux : ∀ (cs : List ColumnDesc) (acc : List String), acc.Nodup →
      (cs.foldl (fun acc col => if col.table ∈ acc then acc else acc ++ [col.table])
        acc).Nodup := by
    intro cs
    induction cs with
    | nil => intro acc h; simpa using h
    | cons col rest ih =>
        intro acc h
        rw [List.foldl_cons]
        split
        · exact ih acc h
        · next hmem =>
            refine ih _ ?_
            rw [List.nodup_append]
            exact ⟨h, List.nodup_singleton _, by simpa using hmem⟩
  exact haux cols [] List.nodup_nil

/-- The first-seen accumulation contains exactly the tables of the
descriptors. -/
theorem uniqueTables_mem (cols : List ColumnDesc) (t : String) :
    t ∈ uniqueTables cols ↔ t ∈ cols.map (·.table) := by
  have haux : ∀ (cs : List ColumnDesc) (acc : List String),
      (t ∈ cs.foldl (fun acc col => if col.table ∈ acc then acc else acc ++ [col.table])
        acc ↔ t ∈ acc ∨ t ∈ cs.map (·.table)) := by
    intro cs
    induction cs with
    | nil => intro acc; simp
    | cons col rest ih =>
        intro acc
        rw [List.foldl_cons, List.map_cons, List.mem_cons]
        split
        · next hmem =>
            rw [ih acc]
            constructor
            · rintro (h | h)
              · exact Or.inl h
              · exact Or.inr (Or.inr h)
            · rintro (h | rfl | h)
              · exact Or.inl h
              · exact Or.inl hmem
              · exact Or.inr h
        · rw [ih _]
          constructor
          · rintro (h | h)
            · rcases List.mem_append.mp h with h' | h'
              · exact Or.inl h'
              · exact Or.inr (Or.inl (List.mem_singleton.mp h'))
            · exact Or.inr (Or.inr h)
          · rintro (h | rfl | h)
            · exact Or.inl (List.mem_append_left _ h)
            · exact Or.inl (List.mem_append_right _ (List.mem_singleton.mpr rfl))
            · exact Or.inr h
  have := haux cols []
  simpa [uniqueTables] using this

/-! ### Claim theorems -/

/-- C10: for every configuration, catalog, driver, parse result and alias
iteration order, `Lint` returns a nil error: failures surface only in the
diagnostic list. -/
theorem lint_error_is_always_nil (cfg : Config) (cache : Option DBCache)
    (driver : String) (parsed : Option Node) (parseErr : String) (ext : Extract)
    (aliasOrder : List (String × Ident)) :
    (lint cfg cache driver parsed parseErr ext aliasOrder).2 = none := by
  unfold lint
  split
  · rfl
  · split <;> rfl

/-- C9: a candidate table name of byte length at most 4 that is a
case-insensitive prefix of one of the fixed suppression keywords is never
validated: no diagnostic at all is emitted for it, whatever the catalog. -/
theorem partial_keyword_suppresses_table_validation (c : DBCache)
    (schemaName tableName : String) (startPos stopPos : Pos)
    (hlen : tableName.utf8ByteSize ≤ 4)
    (hkw : mightBePartialKeyword tableName = true) :
    validateTableReference c schemaName tableName startPos stopPos = [] := by
  unfold validateTableReference
  split
  · rfl
  · rw [if_pos ⟨hlen, hkw⟩]

/-- C9 witness: the name `j` (a prefix of `JOIN`) is suppressed against a
catalog that does not contain it. -/
theorem partial_keyword_suppresses_table_validation_witness :
    ("j".utf8ByteSize ≤ 4 ∧ mightBePartialKeyword "j" = true) ∧
      validateTableReference c8cache "ghost" "j" ⟨1, 1⟩ ⟨1, 8⟩ = [] :=
  ⟨⟨by decide, by decide⟩,
    partial_keyword_suppresses_table_validation c8cache "ghost" "j" ⟨1, 1⟩ ⟨1, 8⟩
      (by decide) (by decide)⟩

/-- C8 counterexample: the reference `ghost.j` has a schema qualifier whose
schema does not exist in the catalog, yet no invalid-schema diagnostic is
emitted, because the partial-keyword guard (`j` is a prefix of `JOIN`) runs
first and suppresses the whole validation. -/
theorem invalid_schema_not_reported_for_partial_keyword :
    schemaExists c8cache "ghost" = false ∧
      validateTableReference c8cache "ghost" "j" ⟨1, 1⟩ ⟨1, 8⟩ = [] := by
  constructor
  · decide
  · decide

/-- C8 amended: provided the table name is not suppressed as a partial
keyword, a schema qualifier that fails lookup short-circuits into exactly one
invalid-schema diagnostic (no table lookup, no table-not-found), and a
resolving or absent schema with an unresolvable table yields exactly one
table-not-found diagnostic. -/
theorem schema_check_short_circuits (c : DBCache) (schemaName tableName : String)
    (startPos stopPos : Pos)
    (hkw : ¬(tableName.utf8ByteSize ≤ 4 ∧ mightBePartialKeyword tableName = true)) :
    (schemaName ≠ "" → schemaExists c schemaName = false →
      validateTableReference c schemaName tableName startPos stopPos =
        [mkDiag .error startPos stopPos codeInvalidSchema
          (formatError codeInvalidSchema [schemaName])]) ∧
    ((schemaName = "" ∨ schemaExists c schemaName = true) →
      tableExists c tableName schemaName = false →
      validateTableReference c schemaName tableName startPos stopPos =
        [mkDiag .error startPos stopPos codeTableNotFound
          (formatError codeTableNotFound [formatTableName schemaName tableName])]) := by
  have hne : tableName ≠ "" := by
    intro h
    subst h
    exact hkw ⟨by decide, by decide⟩
  constructor
  · intro hs hex
    unfold validateTableReference
    rw [if_neg (by simp [hne]), if_neg hkw, if_pos ⟨hs, by simp [hex]⟩]
  · intro hs hnt
    unfold validateTableReference
    rw [if_neg (by simp [hne]), if_neg hkw]
    have hcond : ¬(schemaName ≠ "" ∧ ¬(schemaExists c schemaName = true)) := by
      rcases hs with h | h
      · simp [h]
      · simp [h]
    rw [if_neg (by simpa using hcond), if_pos (by simp [hnt])]

/-- C8 witness: `ghost.users` (bad schema, suppression not applicable) yields
invalid-schema, and plain `nosuch` yields table-not-found. -/
theorem schema_check_short_circuits_witness :
    (validateTableReference c8cache "ghost" "users" ⟨1, 1⟩ ⟨1, 12⟩ =
      [mkDiag .error ⟨1, 1⟩ ⟨1, 12⟩ codeInvalidSchema
        (formatError codeInvalidSchema ["ghost"])]) ∧
    (validateTableReference c8cache "" "nosuch" ⟨1, 1⟩ ⟨1, 7⟩ =
      [mkDiag .error ⟨1, 1⟩ ⟨1, 7⟩ codeTableNotFound
        (formatError codeTableNotFound [formatTableName "" "nosuch"])]) :=
  ⟨(schema_check_short_circuits c8cache "ghost" "users" ⟨1, 1⟩ ⟨1, 12⟩
      (by decide)).1 (by decide) (by decide),
    (schema_check_short_circuits c8cache "" "nosuch" ⟨1, 1⟩ ⟨1, 7⟩
      (by decide)).2 (Or.inl rfl) (by decide)⟩

/-- C6 counterexample: in a document with two comma-joined statements,
implicit-join detection emits a single warning at the second statement's
comma; the first statement's comma — which, run alone, does produce its own
warning — is reported nowhere, refuting the one-warning-per-statement
claim. -/
theorem implicit_join_single_warning_per_document :
    checkImplicitJoins c6stmt1 =
      [mkDiag .warning ⟨1, 17⟩ ⟨1, 18⟩ codeImplicitJoin implicitJoinMsg] ∧
    checkImplicitJoins c6stmt2 =
      [mkDiag .warning ⟨1, 39⟩ ⟨1, 40⟩ codeImplicitJoin implicitJoinMsg] ∧
    checkImplicitJoins c6toks =
      [mkDiag .warning ⟨1, 39⟩ ⟨1, 40⟩ codeImplicitJoin implicitJoinMsg] := by
  refine ⟨by decide, by decide, by decide⟩

/-- C6 amended: per document, not per statement: the scan emits at most one
implicit-join warning for the whole token stream, at the last comma inside a
FROM span (FROM up to the next JOIN/WHERE/ON) across all statements. -/
theorem implicit_join_warns_at_last_from_comma (toks : List SQLToken) :
    checkImplicitJoins toks =
      ((lastFromComma false none toks).map fun c =>
        mkDiag .warning c.fromPos c.toPos codeImplicitJoin implicitJoinMsg).toList ∧
    (checkImplicitJoins toks).length ≤ 1 := by
  have heq : checkImplicitJoins toks =
      ((lastFromComma false none toks).map fun c =>
        mkDiag .warning c.fromPos c.toPos codeImplicitJoin implicitJoinMsg).toList := by
    unfold checkImplicitJoins
    rw [foldl_implicitJoinStep]
    cases lastFromComma false none toks <;> rfl
  refine ⟨heq, ?_⟩
  rw [heq]
  cases lastFromComma false none toks <;> simp

/-- C4 counterexample: on parse failure the single syntax-error diagnostic is
anchored at LSP position (-1, -1), not at the document origin (0, 0):
`posToRange` subtracts one from the `token.Pos{0, 0}` the coordinator
passes. -/
theorem syntax_error_range_not_at_origin :
    (lint defaultConfig none "" none "unexpected token" emptyExtract []).1 =
      [mkDiag .error ⟨0, 0⟩ ⟨0, 0⟩ codeSyntaxError
        "Failed to parse SQL: unexpected token"] ∧
    ∀ d ∈ (lint defaultConfig none "" none "unexpected token" emptyExtract []).1,
      d.range.start ≠ (⟨0, 0⟩ : Position) := by
  refine ⟨by decide, by decide⟩

/-- C4 amended: with the linter enabled, parse failure yields exactly one
diagnostic — code syntax-error, range from (-1,-1) to (-1,-1) (the image of
token position (0,0) under posToRange) — and no validator runs. -/
theorem parse_failure_single_syntax_error (cfg : Config) (cache : Option DBCache)
    (driver : String) (parseErr : String) (ext : Extract)
    (aliasOrder : List (String × Ident)) (hen : cfg.enabled = true) :
    lint cfg cache driver none parseErr ext aliasOrder =
      ([mkDiag .error ⟨0, 0⟩ ⟨0, 0⟩ codeSyntaxError
        ("Failed to parse SQL: " ++ parseErr)], none) := by
  unfold lint
  rw [if_neg (by simp [hen])]
  rw [limitDiagnostics_singleton]

/-- C4 amended witness: the default configuration on a failing parse. -/
theorem parse_failure_single_syntax_error_witness :
    defaultConfig.enabled = true ∧
      lint defaultConfig none "" none "boom" emptyExtract [] =
        ([mkDiag .error ⟨0, 0⟩ ⟨0, 0⟩ codeSyntaxError "Failed to parse SQL: boom"],
          none) :=
  ⟨rfl, parse_failure_single_syntax_error defaultConfig none "" "boom" emptyExtract []
    rfl⟩

/-- C3: with no catalog attached, no table-not-found, invalid-schema,
column-not-found or ambiguous-column diagnostic is ever produced, and the
pass degrades to exactly the syntax, style, select-star, unused-alias and
implicit-join checks (each still gated by its own toggle). -/
theorem no_catalog_no_semantic_diagnostics (cfg : Config) (driver : String)
    (parsed : Option Node) (parseErr : String) (ext : Extract)
    (aliasOrder : List (String × Ident)) (hen : cfg.enabled = true) :
    (∀ d ∈ (lint cfg none driver parsed parseErr ext aliasOrder).1,
        d.code ≠ codeTableNotFound ∧ d.code ≠ codeInvalidSchema ∧
          d.code ≠ codeColumnNotFound ∧ d.code ≠ codeAmbiguousColumn) ∧
    (∀ p, parsed = some p →
        (lint cfg none driver parsed parseErr ext aliasOrder).1 =
          limitDiagnostics cfg
            ((if cfg.checkSyntax then syntaxValidate cfg p else []) ++
              styleValidate cfg p ++
              (if cfg.warnOnSelectStar then checkSelectStar cfg p else []) ++
              (if cfg.warnOnUnusedAlias then checkUnusedAliases cfg p ext aliasOrder
               else []) ++
              (if cfg.warnOnImplicitJoin then checkImplicitJoins (flattenTokens p)
               else []))) := by
  have hrun : ∀ p : Node,
      runValidators cfg none driver p ext aliasOrder =
        (if cfg.checkSyntax then syntaxValidate cfg p else []) ++
          styleValidate cfg p ++
          (if cfg.warnOnSelectStar then checkSelectStar cfg p else []) ++
          (if cfg.warnOnUnusedAlias then checkUnusedAliases cfg p ext aliasOrder
           else []) ++
          (if cfg.warnOnImplicitJoin then checkImplicitJoins (flattenTokens p)
           else []) := by
    intro p
    unfold runValidators
    have h1 : (if cfg.checkTableReferences then tableValidate cfg none (some p) ext
        else []) = [] := by
      split
      · exact tableValidate_none cfg (some p) ext
      · rfl
    have h2 : (if cfg.checkColumnReferences then
        columnValidate cfg none driver (some p) ext else []) = [] := by
      split
      · exact columnValidate_none cfg driver (some p) ext
      · rfl
    rw [h1, h2]
    simp [List.append_assoc]
  constructor
  · intro d hd
    cases parsed with
    | none =>
        unfold lint at hd
        rw [if_neg (by simp [hen])] at hd
        simp only at hd
        have := limitDiagnostics_subset cfg _ d hd
        simp at this
        have hc : d.code = codeSyntaxError := by rw [this]; rfl
        rw [hc]
        refine ⟨by decide, by decide, by decide, by decide⟩
    | some p =>
        unfold lint at hd
        rw [if_neg (by simp [hen])] at hd
        simp only at hd
        have hmem := limitDiagnostics_subset cfg _ d hd
        rw [hrun p] at hmem
        simp only [List.mem_append] at hmem
        rcases hmem with ((((hmem | hmem) | hmem) | hmem) | hmem)
        · have hc : d.code = codeNullComparison := by
            rcases Decidable.em cfg.checkSyntax with h | h
            · rw [if_pos h] at hmem
              exact syntaxValidate_codes cfg p d hmem
            · rw [if_neg h] at hmem
              simp at hmem
          rw [hc]
          refine ⟨by decide, by decide, by decide, by decide⟩
        · rcases styleValidate_codes cfg p d hmem with hc | hc <;> rw [hc] <;>
            refine ⟨by decide, by decide, by decide, by decide⟩
        · have hc : d.code = codeSelectStar := by
            rcases Decidable.em cfg.warnOnSelectStar with h | h
            · rw [if_pos h] at hmem
              exact checkSelectStar_codes cfg p d hmem
            · rw [if_neg h] at hmem
              simp at hmem
          rw [hc]
          refine ⟨by decide, by decide, by decide, by decide⟩
        · have hc : d.code = codeUnusedAlias := by
            rcases Decidable.em cfg.warnOnUnusedAlias with h | h
            · rw [if_pos h] at hmem
              exact checkUnusedAliases_codes cfg p ext aliasOrder d hmem
            · rw [if_neg h] at hmem
              simp at hmem
          rw [hc]
          refine ⟨by decide, by decide, by decide, by decide⟩
        · have hc : d.code = codeImplicitJoin := by
            rcases Decidable.em cfg.warnOnImplicitJoin with h | h
            · rw [if_pos h] at hmem
              exact checkImplicitJoins_codes (flattenTokens p) d hmem
            · rw [if_neg h] at hmem
              simp at hmem
          rw [hc]
          refine ⟨by decide, by decide, by decide, by decide⟩
  · intro p hp
    subst hp
    unfold lint
    rw [if_neg (by simp [hen])]
    simp only
    rw [hrun p]

/-- C3 witness: the no-catalog run of `SELECT id FROM users, orders` (default
configuration): its only diagnostics are the two implicit-join warnings (one
from the table validator call inside the coordinator, one from the
coordinator's own check), which the decomposition predicts. -/
theorem no_catalog_no_semantic_diagnostics_witness :
    defaultConfig.enabled = true ∧
    (∀ d ∈ (lint defaultConfig none "" (some exParsed) "" exExt []).1,
        d.code ≠ codeTableNotFound ∧ d.code ≠ codeInvalidSchema ∧
          d.code ≠ codeColumnNotFound ∧ d.code ≠ codeAmbiguousColumn) ∧
    (lint defaultConfig none "" (some exParsed) "" exExt []).1 =
      limitDiagnostics defaultConfig
        ((if defaultConfig.checkSyntax then syntaxValidate defaultConfig exParsed
          else []) ++
          styleValidate defaultConfig exParsed ++
          (if defaultConfig.warnOnSelectStar then
            checkSelectStar defaultConfig exParsed else []) ++
          (if defaultConfig.warnOnUnusedAlias then
            checkUnusedAliases defaultConfig exParsed exExt [] else []) ++
          (if defaultConfig.warnOnImplicitJoin then
            checkImplicitJoins (flattenTokens exParsed) else [])) :=
  ⟨rfl,
    (no_catalog_no_semantic_diagnostics defaultConfig "" (some exParsed) "" exExt []
      rfl).1,
    (no_catalog_no_semantic_diagnostics defaultConfig "" (some exParsed) "" exExt []
      rfl).2 exParsed rfl⟩

/-- Catalog with a single table `t` holding one column `c`, visible under the
bare name from two schema qualifications. -/
def c7cache : DBCache :=
  { sortedTables := ["t"]
    sortedSchemas := []
    schemaTables := []
    columnDescs := fun s => if s == "t" then some [⟨"t", "c"⟩] else none
    columnDatabase := fun _ _ => none }

/-- Catalog with tables `t1` (column `x`) and `t2` (column `y`), used for the
alias-collision scenario. -/
def c7cache2 : DBCache :=
  { sortedTables := ["t1", "t2"]
    sortedSchemas := []
    schemaTables := []
    columnDescs := fun s =>
      if s == "t1" then some [⟨"t1", "x"⟩]
      else if s == "t2" then some [⟨"t2", "y"⟩]
      else none
    columnDatabase := fun _ _ => none }

/-- C7 counterexample: over arbitrary table-info lists the invariant fails
twice.  With `s1.t` and `s2.t` (same lower-cased name) the `allColumns` group
of `c` holds the descriptor twice while the union of the `tableColumns`
entries holds it once; and with `t1, t2 AS t1` the later alias assignment
overwrites the `tableAliases` entry of the `tableColumns` key `t1`, which no
longer maps to its canonical name. -/
theorem buildColumnContext_invariant_fails :
    ((alookup (buildColumnContext c7cache
        [⟨"s1", "t", ""⟩, ⟨"s2", "t", ""⟩]).allColumns "c").getD [] =
      [⟨"t", "c"⟩, ⟨"t", "c"⟩]) ∧
    ((buildColumnContext c7cache
        [⟨"s1", "t", ""⟩, ⟨"s2", "t", ""⟩]).tableColumns.flatMap (·.2) =
      [⟨"t", "c"⟩]) ∧
    (alookup (buildColumnContext c7cache2
        [⟨"", "t1", ""⟩, ⟨"", "t2", "t1"⟩]).tableColumns "t1" =
      some [⟨"t1", "x"⟩]) ∧
    (alookup (buildColumnContext c7cache2
        [⟨"", "t1", ""⟩, ⟨"", "t2", "t1"⟩]).tableAliases "t1" = some "t2") := by
  refine ⟨by decide, by decide, by decide, by decide⟩

/-- C7 amended: for every catalog and every table-info list whose lower-cased
table names are pairwise distinct and whose aliases do not collide with any
lower-cased table name, buildColumnContext satisfies the invariant: every
`tableColumns` key has a `tableAliases` entry, that entry is the canonical
table name, and `allColumns` is exactly the union, grouped by lower-cased
column name, of the `tableColumns` entries (no extra descriptors and none
missing). -/
theorem buildColumnContext_invariant (c : DBCache) (tables : List TableInfo)
    (hnd : (tables.map fun ti => strLower ti.name).Nodup)
    (hsafe : ∀ ti ∈ tables, ti.aliasName ≠ "" →
      ∀ tj ∈ tables, strLower ti.aliasName ≠ strLower tj.name) :
    (∀ e ∈ (buildColumnContext c tables).tableColumns,
      (alookup (buildColumnContext c tables).tableAliases e.1).isSome = true) ∧
    (∀ ti ∈ tables, ∀ cols0,
      alookup (buildColumnContext c tables).tableColumns (strLower ti.name) =
        some cols0 →
      alookup (buildColumnContext c tables).tableAliases (strLower ti.name) =
        some ti.name) ∧
    (∀ k, (alookup (buildColumnContext c tables).allColumns k).getD [] =
      ((buildColumnContext c tables).tableColumns.flatMap (·.2)).filter
        fun col => strLower col.name == k) := by
  unfold buildColumnContext
  exact buildColumnContext_aux c tables ⟨[], [], []⟩ hnd hsafe
    (fun _ _ => rfl) (fun e he => absurd he (List.not_mem_nil e)) (fun _ => rfl)

/-- C7 witness: the invariant on `users, orders AS o` against the two-table
catalog, instantiated at the `users` entry and the column name `id`. -/
theorem buildColumnContext_invariant_witness :
    (([⟨"", "users", ""⟩, ⟨"", "orders", "o"⟩].map
      fun ti : TableInfo => strLower ti.name).Nodup) ∧
    (alookup (buildColumnContext exCache
        [⟨"", "users", ""⟩, ⟨"", "orders", "o"⟩]).tableAliases "users" =
      some "users") ∧
    ((alookup (buildColumnContext exCache
        [⟨"", "users", ""⟩, ⟨"", "orders", "o"⟩]).allColumns "id").getD [] =
      ((buildColumnContext exCache
        [⟨"", "users", ""⟩, ⟨"", "orders", "o"⟩]).tableColumns.flatMap (·.2)).filter
        fun col => strLower col.name == "id") :=
  ⟨by decide,
    (buildColumnContext_invariant exCache [⟨"", "users", ""⟩, ⟨"", "orders", "o"⟩]
      (by decide) (by decide)).2.1 ⟨"", "users", ""⟩ (by decide)
      [⟨"users", "id"⟩, ⟨"users", "name"⟩] (by decide),
    (buildColumnContext_invariant exCache [⟨"", "users", ""⟩, ⟨"", "orders", "o"⟩]
      (by decide) (by decide)).2.2 "id"⟩

/-- C5: a qualified reference `t.col` whose parent resolves (directly or via
the alias map) to a table whose nonempty column set is known to the pass and
lacks the child column produces exactly one column-not-found diagnostic,
anchored at the child token's span; the three unqualified sweeps re-report
nothing at either component's position. -/
theorem qualified_column_not_found_anchored_once (cfg : Config) (c : DBCache)
    (driver : String) (parsed : Node) (ext : Extract) (pi ci : Ident) (a b : Pos)
    (cols : List ColumnDesc)
    (hcc : cfg.checkColumnReferences = true)
    (hfilter : (walkNodes parsed).filter (memPartAtB ci.tok.fromPos) =
      [Node.member (some pi) (some ci) a b])
    (hgate : (alookup (colAliasMap ext) (strLower pi.name)).isSome = true ∨
      (alookup (colCtx c ext).tableColumns (strLower pi.name)).isSome = true ∨
      (colTables ext).any
        (fun ti => eqFold ti.name pi.name ∨ eqFold ti.aliasName pi.name) = true)
    (hwild : ci.wildcard = false) (hstar : ci.name ≠ "*") (hempty : ci.name ≠ "")
    (hcols : qualifiedColsFor (colCtx c ext) c
      ((alookup (colAliasMap ext) (strLower pi.name)).getD pi.name) = some cols)
    (hne : cols ≠ [])
    (habsent : cols.any (fun col => eqFold col.name ci.name) = false) :
    ((columnValidate cfg (some c) driver (some parsed) ext).filter
        (anchoredAt ci.tok.fromPos) =
      [mkDiag .error ci.tok.fromPos ci.tok.toPos codeColumnNotFound
        (formatError codeColumnNotFound
          [ci.name, (alookup (colAliasMap ext) (strLower pi.name)).getD pi.name])]) ∧
    ((selectSweep driver cfg (computeSkips parsed ext) (colAliasMap ext)
        (colCtx c ext) ext).filter (anchoredAt pi.tok.fromPos) = []) ∧
    ((whereSweep driver cfg (computeSkips parsed ext) (colAliasMap ext)
        (colCtx c ext) ext).filter (anchoredAt pi.tok.fromPos) = []) ∧
    ((allSweep driver cfg (computeSkips parsed ext) (colAliasMap ext)
        (colCtx c ext) (colTables ext) parsed).filter (anchoredAt pi.tok.fromPos)
      = []) := by
  have hmemf : Node.member (some pi) (some ci) a b ∈
      (walkNodes parsed).filter (memPartAtB ci.tok.fromPos) := by
    rw [hfilter]
    exact List.mem_singleton.mpr rfl
  have hwalk : Node.member (some pi) (some ci) a b ∈ walkNodes parsed :=
    List.mem_of_mem_filter hmemf
  have hskipci : ci.tok.fromPos ∈ computeSkips parsed ext :=
    memberSkip_subset_skips parsed ext _
      (memberSkip_of_walk parsed pi ci a b hwalk).2
  have hskippi : pi.tok.fromPos ∈ computeSkips parsed ext :=
    memberSkip_subset_skips parsed ext _
      (memberSkip_of_walk parsed pi ci a b hwalk).1
  have hqual : (qualifiedSweep c (colAliasMap ext) (colCtx c ext) (colTables ext)
      parsed).filter (anchoredAt ci.tok.fromPos) =
      [mkDiag .error ci.tok.fromPos ci.tok.toPos codeColumnNotFound
        (formatError codeColumnNotFound
          [ci.name, (alookup (colAliasMap ext) (strLower pi.name)).getD pi.name])] := by
    unfold qualifiedSweep
    rw [filter_flatMap]
    rw [flatMap_of_filter_singleton _ (memPartAtB ci.tok.fromPos) _
      (Node.member (some pi) (some ci) a b) hfilter
      (fun n _ hpr =>
        handleQualified_filter_ne c (colAliasMap ext) (colCtx c ext) (colTables ext)
          n ci.tok.fromPos hpr)]
    rw [handleQualified_at_member c (colAliasMap ext) (colCtx c ext) (colTables ext)
      pi ci a b cols hgate hwild hstar hempty hcols hne habsent]
    simp [anchoredAt, mkDiag, posToRange, startOfPos]
  refine ⟨?_, ?_, ?_, ?_⟩
  · rw [columnValidate_unfolded cfg c driver parsed ext hcc]
    rw [List.filter_append, List.filter_append, List.filter_append]
    rw [hqual,
      selectSweep_filter_skip driver cfg _ _ _ ext _ hskipci,
      whereSweep_filter_skip driver cfg _ _ _ ext _ hskipci,
      allSweep_filter_skip driver cfg _ _ _ _ parsed _ hskipci]
    rfl
  · exact selectSweep_filter_skip driver cfg _ _ _ ext _ hskippi
  · exact whereSweep_filter_skip driver cfg _ _ _ ext _ hskippi
  · exact allSweep_filter_skip driver cfg _ _ _ _ parsed _ hskippi

/-- The qualified reference `t.nope` of `SELECT t.nope FROM t`. -/
def c5member : Node :=
  .member (some (mkIdent "t" 1 8)) (some (mkIdent "nope" 1 10)) ⟨1, 8⟩ ⟨1, 14⟩

/-- The parsed statement `SELECT t.nope FROM t`. -/
def c5parsed : Node :=
  .stmt [.tok (kwTok "SELECT" 1 1), c5member, .tok (kwTok "FROM" 1 15),
    .ident (mkIdent "t" 1 20)]

/-- Extraction results for `SELECT t.nope FROM t`. -/
def c5ext : Extract := ⟨[.ident (mkIdent "t" 1 20)], [], [], [c5member], [], []⟩

/-- Catalog with the single table `t` holding only the column `id`. -/
def c5cache : DBCache :=
  { sortedTables := ["t"]
    sortedSchemas := []
    schemaTables := []
    columnDescs := fun s => if s == "t" then some [⟨"t", "id"⟩] else none
    columnDatabase := fun _ _ => none }

/-- C5 witness: `SELECT t.nope FROM t` with catalog `{t: [id]}` yields one
column-not-found anchored at `nope`, and the sweeps stay silent at `t`. -/
theorem qualified_column_not_found_anchored_once_witness :
    ((columnValidate defaultConfig (some c5cache) "" (some c5parsed) c5ext).filter
        (anchoredAt ⟨1, 10⟩) =
      [mkDiag .error ⟨1, 10⟩ ⟨1, 14⟩ codeColumnNotFound
        (formatError codeColumnNotFound ["nope", "t"])]) ∧
    ((selectSweep "" defaultConfig (computeSkips c5parsed c5ext) (colAliasMap c5ext)
        (colCtx c5cache c5ext) c5ext).filter (anchoredAt ⟨1, 8⟩) = []) :=
  ⟨((qualified_column_not_found_anchored_once defaultConfig c5cache "" c5parsed c5ext
      (mkIdent "t" 1 8) (mkIdent "nope" 1 10) ⟨1, 8⟩ ⟨1, 14⟩ [⟨"t", "id"⟩]
      rfl (by rfl) (Or.inr (Or.inl (by rfl))) rfl (by decide) (by decide)
      (by rfl) (by decide) (by rfl)).1),
    ((qualified_column_not_found_anchored_once defaultConfig c5cache "" c5parsed c5ext
      (mkIdent "t" 1 8) (mkIdent "nope" 1 10) ⟨1, 8⟩ ⟨1, 14⟩ [⟨"t", "id"⟩]
      rfl (by rfl) (Or.inr (Or.inl (by rfl))) rfl (by decide) (by decide)
      (by rfl) (by decide) (by rfl)).2.1)⟩

/-- Default configuration with implicit-join warnings off, isolating the
column diagnostics. -/
def c1cfg : Config := { defaultConfig with warnOnImplicitJoin := false }

/-- C1 counterexample: on `SELECT id FROM users, orders` with both tables
carrying `id`, the linter emits the ambiguous-column warning for the single
`id` occurrence twice — once from the SELECT-list sweep and once from the
whole-statement sweep — not exactly once. -/
theorem ambiguous_column_warned_twice_in_select :
    lint c1cfg (some exCache) "" (some exParsed) "" exExt [] =
      ([mkDiag .warning ⟨1, 8⟩ ⟨1, 10⟩ codeAmbiguousColumn
          (formatError codeAmbiguousColumn ["id", "users, orders"]),
        mkDiag .warning ⟨1, 8⟩ ⟨1, 10⟩ codeAmbiguousColumn
          (formatError codeAmbiguousColumn ["id", "users, orders"])], none) := by
  decide

/-- C1 amended: an unqualified ambiguous occurrence receives one
ambiguous-column warning from each sweep that covers it — two for a
SELECT-list occurrence (the SELECT-list sweep and the whole-statement sweep),
rather than exactly one — and every emitted warning lists each distinct table
name exactly once (first-seen accumulation: duplicate-free, containing
exactly the owning tables of the resolved descriptors). -/
theorem ambiguous_column_per_covering_sweep (cfg : Config) (c : DBCache)
    (driver : String) (parsed : Node) (ext : Extract) (i : Ident)
    (cols : List ColumnDesc)
    (hcc : cfg.checkColumnReferences = true)
    (hwarn : cfg.warnOnAmbiguousColumn = true)
    (hnskip : i.tok.fromPos ∉ computeSkips parsed ext)
    (hsel : (ext.selectExpr.flatMap walkNodes).filter (identAtB i.tok.fromPos) =
      [Node.ident i])
    (hwhere : (ext.whereCondition.flatMap walkNodes).filter (identAtB i.tok.fromPos)
      = [])
    (hall : (walkNodes parsed).filter (identAtB i.tok.fromPos) = [Node.ident i])
    (hlit : isStringLiteral driver i = false) (hempty : i.name ≠ "")
    (hwild : i.wildcard = false)
    (halias : alookup (colAliasMap ext) (strLower i.name) = none)
    (hcols : alookup (colCtx c ext).allColumns (strLower i.name) = some cols)
    (hnum : (uniqueTables cols).length > 1) :
    ((columnValidate cfg (some c) driver (some parsed) ext).filter
        (anchoredAt i.tok.fromPos) =
      [mkDiag .warning i.tok.fromPos i.tok.toPos codeAmbiguousColumn
        (formatError codeAmbiguousColumn
          [i.name, String.intercalate ", " (uniqueTables cols)]),
        mkDiag .warning i.tok.fromPos i.tok.toPos codeAmbiguousColumn
        (formatError codeAmbiguousColumn
          [i.name, String.intercalate ", " (uniqueTables cols)])]) ∧
    (uniqueTables cols).Nodup ∧
    (∀ t, t ∈ uniqueTables cols ↔ t ∈ cols.map (·.table)) := by
  have hlen : cols.length > 1 := lt_of_lt_of_le hnum (uniqueTables_length_le cols)
  have hselS : (selectSweep driver cfg (computeSkips parsed ext) (colAliasMap ext)
      (colCtx c ext) ext).filter (anchoredAt i.tok.fromPos) =
      [mkDiag .warning i.tok.fromPos i.tok.toPos codeAmbiguousColumn
        (formatError codeAmbiguousColumn
          [i.name, String.intercalate ", " (uniqueTables cols)])] := by
    unfold selectSweep
    rw [filter_flatMap]
    rw [flatMap_of_filter_singleton _ (identAtB i.tok.fromPos) _ (Node.ident i) hsel
      (fun n _ hpr =>
        handleUnqualified_filter_ne driver cfg _ (colAliasMap ext) (colCtx c ext) n
          i.tok.fromPos hpr)]
    rw [handleUnqualified_at_ambiguous driver cfg _ (colAliasMap ext) (colCtx c ext)
      i cols hnskip hlit hempty hwild halias hcols hwarn hlen hnum]
    simp [anchoredAt, mkDiag, posToRange, startOfPos]
  have hwhereS : (whereSweep driver cfg (computeSkips parsed ext) (colAliasMap ext)
      (colCtx c ext) ext).filter (anchoredAt i.tok.fromPos) = [] := by
    unfold whereSweep
    rw [filter_flatMap]
    exact flatMap_of_filter_nil _ (identAtB i.tok.fromPos) _ hwhere
      (fun n _ hpr =>
        handleUnqualified_filter_ne driver cfg _ (colAliasMap ext) (colCtx c ext) n
          i.tok.fromPos hpr)
  have hallS : (allSweep driver cfg (computeSkips parsed ext) (colAliasMap ext)
      (colCtx c ext) (colTables ext) parsed).filter (anchoredAt i.tok.fromPos) =
      [mkDiag .warning i.tok.fromPos i.tok.toPos codeAmbiguousColumn
        (formatError codeAmbiguousColumn
          [i.name, String.intercalate ", " (uniqueTables cols)])] := by
    unfold allSweep
    rw [filter_flatMap]
    rw [flatMap_of_filter_singleton _ (identAtB i.tok.fromPos) _ (Node.ident i) hall
      (fun n _ hpr =>
        handleUnqualifiedAll_filter_ne driver cfg _ (colAliasMap ext) (colCtx c ext)
          (colTables ext) n i.tok.fromPos hpr)]
    rw [handleUnqualifiedAll_at_ambiguous driver cfg _ (colAliasMap ext)
      (colCtx c ext) (colTables ext) i cols hnskip hlit hempty hwild halias hcols
      hwarn hlen hnum]
    simp [anchoredAt, mkDiag, posToRange, startOfPos]
  refine ⟨?_, uniqueTables_nodup cols, uniqueTables_mem cols⟩
  rw [columnValidate_unfolded cfg c driver parsed ext hcc]
  rw [List.filter_append, List.filter_append, List.filter_append]
  rw [qualifiedSweep_filter_notskip c (colAliasMap ext) (colCtx c ext)
    (colTables ext) parsed ext _ hnskip, hselS, hwhereS, hallS]
  rfl

/-- C1 witness: the amended statement on `SELECT id FROM users, orders`. -/
theorem ambiguous_column_per_covering_sweep_witness :
    ((columnValidate defaultConfig (some exCache) "" (some exParsed) exExt).filter
        (anchoredAt ⟨1, 8⟩) =
      [mkDiag .warning ⟨1, 8⟩ ⟨1, 10⟩ codeAmbiguousColumn
        (formatError codeAmbiguousColumn ["id", "users, orders"]),
        mkDiag .warning ⟨1, 8⟩ ⟨1, 10⟩ codeAmbiguousColumn
        (formatError codeAmbiguousColumn ["id", "users, orders"])]) ∧
    (uniqueTables [⟨"users", "id"⟩, ⟨"orders", "id"⟩]).Nodup :=
  ⟨by
    have h := (ambiguous_column_per_covering_sweep defaultConfig exCache ""
      exParsed exExt (mkIdent "id" 1 8) [⟨"users", "id"⟩, ⟨"orders", "id"⟩]
      rfl rfl (by decide) (by rfl) (by rfl) (by rfl) rfl (by decide) rfl (by rfl)
      (by rfl) (by decide)).1
    exact h,
    (ambiguous_column_per_covering_sweep defaultConfig exCache "" exParsed exExt
      (mkIdent "id" 1 8) [⟨"users", "id"⟩, ⟨"orders", "id"⟩]
      rfl rfl (by decide) (by rfl) (by rfl) (by rfl) rfl (by decide) rfl (by rfl)
      (by rfl) (by decide)).2.1⟩

/-- C2: `Lint` is not a function of (text, config, catalog) alone: the
unused-alias loop ranges over a Go map, so two runs over the identical
document `SELECT 1 FROM t1 AS a, t2 AS b` with unused-alias warnings enabled
may observe the two collected definitions in either order and return the two
warnings in different orders. -/
theorem lint_output_depends_on_map_iteration_order :
    c2order1.Perm c2order2 ∧
    c2order1 = unusedAliasDefs c2ext ∧
    lint c2cfg none "" (some c2parsed) "" c2ext c2order1 ≠
      lint c2cfg none "" (some c2parsed) "" c2ext c2order2 := by
  refine ⟨(List.reverse_perm c2order1).symm, rfl, by decide⟩

end Sqls
